import Mathlib

/-!
Verification development for the shield_tester repository.

The Python sources are shallowly embedded over exact rationals (`ℚ` stands in
for CPython floats; the float-specific rounding of IEEE arithmetic is not
modelled, only the exact field operations the code performs).  Fallible Python
operations are modelled in the `Except PyErr` monad: float division raises
`ZeroDivisionError` on a zero denominator, `math.log` raises `ValueError` on a
non-positive argument, and setting an attribute on the integer `0` sentinel
used by `TestCase.test_case` raises `AttributeError`.
-/

namespace ShieldTesterModel

attribute [local semireducible] Rat.mul Rat.add Rat.sub Rat.inv

/-- Runtime errors of the embedded Python fragments. -/
inductive PyErr where
  | zeroDivision
  | valueError
  | attributeError
deriving DecidableEq, Repr

instance {ε α : Type} [DecidableEq ε] [DecidableEq α] : DecidableEq (Except ε α) := fun
  | .error e, .error e' => decidable_of_iff (e = e') (by simp)
  | .error _, .ok _ => isFalse (by simp)
  | .ok _, .error _ => isFalse (by simp)
  | .ok a, .ok a' => decidable_of_iff (a = a') (by simp)

/-- Python float division: `a / b` raises `ZeroDivisionError` when `b == 0`. -/
def qdiv (a b : ℚ) : Except PyErr ℚ :=
  if b = 0 then .error .zeroDivision else .ok (a / b)

/-- Python `abs` on a rational. -/
def pyAbs (q : ℚ) : ℚ := if q < 0 then -q else q

/-- Python `max` of two rationals (returns the first argument on ties). -/
def pyMax (a b : ℚ) : ℚ := if a < b then b else a

/-- The relative tolerance `1e-8` used by the source's `math.isclose` calls. -/
def relTol : ℚ := 1 / 100000000

/-- CPython `math.isclose(a, b, rel_tol=1e-8)` (with the default `abs_tol=0.0`):
`abs(a-b) <= max(rel_tol * max(abs(a), abs(b)), abs_tol)`. -/
def isclose (a b : ℚ) : Prop :=
  pyAbs (a - b) ≤ pyMax (relTol * pyMax (pyAbs a) (pyAbs b)) 0

instance (a b : ℚ) : Decidable (isclose a b) := by
  unfold isclose; infer_instance

/-- ShieldBoosterVariant.py: one booster variant.  The resistance fields hold
the multipliers stored by `create_from_json` (`1 - json bonus`), exactly as the
in-memory objects consumed by `test_case` do.  The string metadata fields
(`engineering`, `experimental`, `loadout_template`) are presentation-only and
omitted. -/
structure ShieldBoosterVariant where
  shield_strength_bonus : ℚ
  exp_res_bonus : ℚ
  kin_res_bonus : ℚ
  therm_res_bonus : ℚ
  can_skip : Bool := false
deriving DecidableEq, Repr

/-- ShieldGenerator.py: numeric state of a shield generator variant.  String
metadata (symbol and names) is omitted; all numeric attributes used by the
computations are kept. -/
structure ShieldGenerator where
  integrity : ℚ := 0
  power : ℚ := 0
  explres : ℚ := 0
  kinres : ℚ := 0
  thermres : ℚ := 0
  regen : ℚ := 0
  brokenregen : ℚ := 0
  distdraw : ℚ := 0
  maxmass : ℚ := 0
  maxmul : ℚ := 0
  minmass : ℚ := 0
  minmul : ℚ := 0
  optmass : ℚ := 0
  optmul : ℚ := 0
  module_class : ℕ := 0
deriving DecidableEq, Repr

/-- StarShip.py: the fields consumed by the search core.  `utility_slots` is
the Python property `len(self.utility_slots_free)`. -/
structure StarShip where
  base_shield_strength : ℚ := 0
  hull_mass : ℚ := 0
  utility_slots : ℕ := 0
deriving DecidableEq, Repr

/-- LoadOut.py: a shield generator resolved onto a ship.  In the source
`shield_strength` is precomputed by `__calculate_shield_strength` in
`__init__`; the record stores that precomputed value (the construction
itself is embedded separately as `mkLoadOut`).  `boosters` is `None` until
assigned. -/
structure LoadOut where
  shield_generator : ShieldGenerator
  ship : StarShip
  shield_strength : ℚ
  boosters : Option (List ShieldBoosterVariant) := none
deriving DecidableEq, Repr

/-- TestResult.py: the result record.  Negative `survival_time` /
`incoming_dps` mean the ship never dies. -/
structure TestResult where
  loadout : Option LoadOut := none
  survival_time : ℚ := 0
  incoming_dps : ℚ := 0
  total_hitpoints : ℚ := 0
deriving DecidableEq, Repr

/-- TestCase.py: the search setup.  `number_of_boosters_to_test` is a Python
int and may be any integer before clamping. -/
structure TestCase where
  ship : StarShip
  damage_effectiveness : ℚ := 0
  explosive_dps : ℚ := 0
  kinetic_dps : ℚ := 0
  thermal_dps : ℚ := 0
  absolute_dps : ℚ := 0
  scb_hitpoints : ℚ := 0
  guardian_hitpoints : ℚ := 0
  shield_booster_variants : List ShieldBoosterVariant := []
  loadout_list : List LoadOut := []
  number_of_boosters_to_test : ℤ := 0
deriving DecidableEq, Repr

/-- Diminishing-returns compensation applied per resistance axis at the end of
`ShieldBoosterVariant.calculate_booster_bonuses`:
`if p < 0.7: p = 0.7 - (0.7 - p) / 2`. -/
def diminish (p : ℚ) : ℚ := if p < 7/10 then 7/10 - (7/10 - p) / 2 else p

/-- ShieldBoosterVariant.calculate_booster_bonuses (list-of-variants mode; the
optional `booster_loadout` index mode merely pre-resolves indices and is done
by the caller in the embedding of `test_case`).  Returns
`(exp_modifier, kin_modifier, therm_modifier, hitpoint_bonus)`. -/
def ShieldBoosterVariant.calculate_booster_bonuses
    (shield_boosters : List ShieldBoosterVariant) : ℚ × ℚ × ℚ × ℚ :=
  let folded := shield_boosters.foldl
    (fun (acc : ℚ × ℚ × ℚ × ℚ) (booster : ShieldBoosterVariant) =>
      (acc.1 * booster.exp_res_bonus, acc.2.1 * booster.kin_res_bonus,
       acc.2.2.1 * booster.therm_res_bonus, acc.2.2.2 + booster.shield_strength_bonus))
    (1, 1, 1, 1)
  (diminish folded.1, diminish folded.2.1, diminish folded.2.2.1, folded.2.2.2)

/-- LoadOut.calculate_total_values. -/
def LoadOut.calculate_total_values (l : LoadOut)
    (exp_modifier kin_modifier therm_modifier hitpoint_bonus : ℚ) : ℚ × ℚ × ℚ × ℚ :=
  ((1 - l.shield_generator.explres) * exp_modifier,
   (1 - l.shield_generator.kinres) * kin_modifier,
   (1 - l.shield_generator.thermres) * therm_modifier,
   l.shield_strength * hitpoint_bonus)

/-- LoadOut.get_total_values.  The Python guard `if self.boosters and
len(self.boosters) > 0` is false for `None` and for the empty list; both fall
through to `calculate_total_values(1, 1, 1, 1)`.  The declared `Optional`
return type of the source is kept to state claim C10. -/
def LoadOut.get_total_values (l : LoadOut) : Option (ℚ × ℚ × ℚ × ℚ) :=
  match l.boosters with
  | some bs =>
      if bs.length > 0 then
        let m := ShieldBoosterVariant.calculate_booster_bonuses bs
        some (l.calculate_total_values m.1 m.2.1 m.2.2.1 m.2.2.2)
      else some (l.calculate_total_values 1 1 1 1)
  | none => some (l.calculate_total_values 1 1 1 1)

/-- Python list indexing `lst[x]` (raises `IndexError` out of range; the
search core only produces in-range indices, and an out-of-range access is
mapped to the generic error value). -/
def pyIndex (l : List α) (i : ℕ) : Except PyErr α :=
  match l[i]? with
  | some a => .ok a
  | none => .error .valueError

/-- Mutable loop state of `TestCase.test_case` (lines 64-68 of TestCase.py).
`best_loadout` starts as the integer `0`, modelled as `none`. -/
structure TCState where
  best_survival_time : ℚ
  lowest_dps : ℚ
  best_loadout : Option LoadOut
  best_shield_booster_loadout : Option (List ShieldBoosterVariant)
  best_hitpoints : ℚ
deriving DecidableEq, Repr

/-- Initial loop state of `TestCase.test_case`. -/
def tcInit : TCState := ⟨0, 10000, none, none, 0⟩

namespace TestCase

/-- Inner loop body of `TestCase.test_case` (lines 84-113): evaluate one
loadout against the booster bonuses of the current combination and update the
running best.  `survival_time` is computed by an unconditional float division
before any branch, so `actual_dps == 0` raises `ZeroDivisionError`. -/
def processLoadout (tc : TestCase) (boosters : List ShieldBoosterVariant)
    (exp_modifier kin_modifier therm_modifier hitpoint_bonus : ℚ)
    (st : TCState) (loadout : LoadOut) : Except PyErr TCState := do
  let exp_res := (1 - loadout.shield_generator.explres) * exp_modifier
  let kin_res := (1 - loadout.shield_generator.kinres) * kin_modifier
  let therm_res := (1 - loadout.shield_generator.thermres) * therm_modifier
  let hp := loadout.shield_strength * hitpoint_bonus
  let regen_rate := loadout.shield_generator.regen * (1 - tc.damage_effectiveness)
  let actual_dps := tc.damage_effectiveness *
      (tc.explosive_dps * exp_res + tc.kinetic_dps * kin_res +
       tc.thermal_dps * therm_res + tc.absolute_dps) - regen_rate
  let survival_time ← qdiv (hp + tc.scb_hitpoints + tc.guardian_hitpoints) actual_dps
  if actual_dps > 0 ∧ st.best_survival_time ≥ 0 then
    if survival_time > st.best_survival_time then
      pure ⟨survival_time, st.lowest_dps, some loadout, some boosters, hp⟩
    else pure st
  else if actual_dps ≤ 0 then
    if st.lowest_dps > actual_dps ∨
        (isclose st.lowest_dps actual_dps ∧ st.best_hitpoints < hp) then
      pure ⟨survival_time, actual_dps, some loadout, some boosters, hp⟩
    else pure st
  else pure st

/-- Outer loop body of `TestCase.test_case` (lines 79-113): resolve one
booster combination, compute its bonuses once, then fold over all loadouts. -/
def processCombination (tc : TestCase) (st : TCState) (booster_combination : List ℕ) :
    Except PyErr TCState := do
  let boosters ← booster_combination.mapM (pyIndex tc.shield_booster_variants)
  let m := ShieldBoosterVariant.calculate_booster_bonuses boosters
  tc.loadout_list.foldlM (processLoadout tc boosters m.1 m.2.1 m.2.2.1 m.2.2.2) st

/-- TestCase.test_case: fold all booster combinations over the initial state,
then build the result.  The final `best_loadout.boosters = ...` assignment
raises `AttributeError` when `best_loadout` is still the integer `0` sentinel
(no candidate was ever recorded); `copy.deepcopy` is the identity on the
value-semantics records of the embedding. -/
def test_case (tc : TestCase) (booster_combinations : List (List ℕ)) :
    Except PyErr TestResult := do
  let st ← booster_combinations.foldlM (processCombination tc) tcInit
  match st.best_loadout with
  | none => throw .attributeError
  | some lo =>
      pure ⟨some { lo with boosters := st.best_shield_booster_loadout },
            st.best_survival_time, st.lowest_dps, st.best_hitpoints⟩

end TestCase

namespace ShieldTester

/-- ShieldTester.MP_CHUNK_SIZE. -/
def MP_CHUNK_SIZE : ℕ := 10000

/-- The `apply_async_callback` closure of `ShieldTester.compute`
(lines 313-326), as the pure fold of a new chunk result `r` into the running
`best_result` (the progress-callback side effect is traced separately by the
driver). -/
def apply_async_callback (best_result r : TestResult) : TestResult :=
  if best_result.survival_time < 0 then
    if best_result.incoming_dps > r.incoming_dps ∨
        (isclose best_result.incoming_dps r.incoming_dps ∧
         best_result.total_hitpoints < r.total_hitpoints) then r
    else best_result
  else
    if r.survival_time < 0 then r
    else if r.survival_time > best_result.survival_time then r
    else best_result

/-- Recursion core of the `chunks` generator, fuelled by the list length so
that it is structurally recursive (for `n ≥ 1` and fuel `≥ l.length` the fuel
never runs out). -/
def chunksGo (n : ℕ) : ℕ → List α → List (List α)
  | _, [] => []
  | 0, _ => []
  | fuel + 1, l => l.take n :: chunksGo n fuel (l.drop n)

/-- The `chunks` generator of `ShieldTester.compute` (lines 328-330): slices
of size `n` in order (the source always calls it with
`n = MP_CHUNK_SIZE > 0`; `n = 0` would raise in Python and is mapped to `[]`). -/
def chunks (n : ℕ) (l : List α) : List (List α) :=
  if n = 0 then [] else chunksGo n l.length l

/-- Clamping of the requested booster count in `ShieldTester.compute`
(lines 244-245): `max(0, min(ship.utility_slots, number_of_boosters_to_test))`. -/
def booster_amount (tc : TestCase) : ℕ :=
  (max 0 (min (tc.ship.utility_slots : ℤ) tc.number_of_boosters_to_test)).toNat

end ShieldTester

/-- The multiset-combination enumeration
`itertools.combinations_with_replacement(range(0, n), k)` used at line 247 of
ShieldTester.py, in the exact lexicographic emission order of itertools:
`cwrFrom n k i` enumerates the non-decreasing `k`-tuples over `[i, n)`. -/
def cwrFrom (n : ℕ) : ℕ → ℕ → List (List ℕ)
  | 0, _ => [[]]
  | k + 1, i =>
      (List.range' i (n - i)).flatMap fun j => (cwrFrom n k j).map (j :: ·)

namespace ShieldTester

/-- The full booster-combination sequence of `ShieldTester.compute` (line 247). -/
def booster_combinations (tc : TestCase) : List (List ℕ) :=
  cwrFrom tc.shield_booster_variants.length (booster_amount tc) 0

/-- The chunk-dispatch-and-fold core of `ShieldTester.compute`
(lines 311-365), over an explicit list of consecutive chunks: evaluate each
chunk with `TestCase.test_case` and fold the chunk results into
`best_result = TestResult(survival_time=0)` with `apply_async_callback`, in
chunk order (the multiprocessing branch and the sequential branch perform the
same fold; a worker exception propagates and aborts the search). -/
def computeCore (tc : TestCase) (parts : List (List (List ℕ))) :
    Except PyErr TestResult := do
  let results ← parts.mapM (TestCase.test_case tc)
  pure (results.foldl apply_async_callback {})

end ShieldTester

/-- Loop state of the preliminary filter of `ShieldTester.compute`
(lines 256-259).  `best_survival_time` and `lowest_dps` are updated by the
loop but never read after it (dead state inherited from an older variant of
the algorithm); they are kept for fidelity. -/
structure PrefilterState where
  preliminary_list : List (ℚ × LoadOut)
  preliminary_list_survived : List (ℚ × LoadOut)
  best_survival_time : ℚ
  lowest_dps : ℚ
deriving DecidableEq, Repr

namespace ShieldTester

/-- Loop body of the preliminary filter (lines 261-287): evaluate one loadout
with unity booster modifiers.  As in `test_case`, `survival_time` is computed
by an unconditional division, so zero net DPS raises `ZeroDivisionError`. -/
def prefilterLoadout (tc : TestCase) (st : PrefilterState) (loadout : LoadOut) :
    Except PyErr PrefilterState := do
  let exp_res := 1 - loadout.shield_generator.explres
  let kin_res := 1 - loadout.shield_generator.kinres
  let therm_res := 1 - loadout.shield_generator.thermres
  let hp := loadout.shield_strength
  let regen_rate := loadout.shield_generator.regen * (1 - tc.damage_effectiveness)
  let actual_dps := tc.damage_effectiveness *
      (tc.explosive_dps * exp_res + tc.kinetic_dps * kin_res +
       tc.thermal_dps * therm_res + tc.absolute_dps) - regen_rate
  let survival_time ← qdiv (hp + tc.scb_hitpoints + tc.guardian_hitpoints) actual_dps
  if actual_dps > 0 then
    let st := { st with preliminary_list := st.preliminary_list ++ [(survival_time, loadout)] }
    if st.best_survival_time ≥ 0 ∧ survival_time > st.best_survival_time then
      pure { st with best_survival_time := survival_time }
    else pure st
  else if actual_dps < 0 then
    let st := { st with
      preliminary_list_survived := st.preliminary_list_survived ++ [(actual_dps, loadout)] }
    if st.lowest_dps > actual_dps then
      pure { st with best_survival_time := survival_time, lowest_dps := actual_dps }
    else pure st
  else pure st

end ShieldTester

/-- Ascending comparison by the first (key) component, as used by
`preliminary_list_survived.sort(key=lambda tup: tup[0])`. -/
def keyLe (x y : ℚ × LoadOut) : Prop := x.1 ≤ y.1

/-- Descending comparison by the first (key) component, as used by
`preliminary_list.sort(key=lambda tup: tup[0], reverse=True)`. -/
def keyGe (x y : ℚ × LoadOut) : Prop := y.1 ≤ x.1

instance : DecidableRel keyLe := fun x y => by unfold keyLe; infer_instance

instance : DecidableRel keyGe := fun x y => by unfold keyGe; infer_instance

instance : IsTotal (ℚ × LoadOut) keyLe := ⟨fun x y => le_total x.1 y.1⟩

instance : IsTrans (ℚ × LoadOut) keyLe := ⟨fun _ _ _ h h' => le_trans h h'⟩

instance : IsTotal (ℚ × LoadOut) keyGe := ⟨fun x y => le_total y.1 x.1⟩

instance : IsTrans (ℚ × LoadOut) keyGe := ⟨fun _ _ _ h h' => le_trans h' h⟩

namespace ShieldTester

/-- The preliminary filter of `ShieldTester.compute` (lines 255-295): run the
unboosted evaluation over all loadouts, then keep the `prelim` best.  Python
`list.sort(key=...)` is a stable sort by key, which `List.insertionSort` with
a `≤`-by-key relation reproduces exactly (ties keep original order). -/
def prefilterSelect (tc : TestCase) (prelim : ℕ) : Except PyErr (List LoadOut) := do
  let st ← tc.loadout_list.foldlM (prefilterLoadout tc) ⟨[], [], 0, 10000⟩
  if st.preliminary_list_survived.length > 0 then
    pure (((st.preliminary_list_survived.insertionSort keyLe).take prelim).map (·.2))
  else
    pure (((st.preliminary_list.insertionSort keyGe).take prelim).map (·.2))

end ShieldTester

/-- Progress events delivered through the `callback` argument of
`ShieldTester.compute` (`CALLBACK_MESSAGE` events depend on the optional
`message_queue`, which is not modelled). -/
inductive CEvent where
  | step
  | cancelled
deriving DecidableEq, Repr

/-- Observable outcome of one `ShieldTester.compute` run: the returned value
(`none` both for the "can't test" early return and for cancellation, as in
Python), the callback events in order, and the chunks actually handed to
`TestCase.test_case`. -/
structure ComputeTrace where
  result : Option TestResult
  events : List CEvent
  dispatched : List (List (List ℕ))
deriving DecidableEq, Repr

namespace ShieldTester

/-- Chunk dispatch loop of `ShieldTester.compute` (lines 337-371, sequential
branch; the multiprocessing branch checks the flag at the same chunk
boundaries and folds chunk results with the same `apply_async_callback`).
`cancel i` is the value of `self.__cancel` observed at the i-th chunk-boundary
check (the flag is written by another thread via `cancel()`); the check after
the loop (line 367) is the final one. -/
def computeLoop (tc : TestCase) (cancel : ℕ → Bool) :
    ℕ → TestResult → List CEvent → List (List (List ℕ)) → List (List (List ℕ)) →
    Except PyErr ComputeTrace
  | idx, best, events, dispatched, [] =>
      if cancel idx then pure ⟨none, events ++ [.cancelled], dispatched⟩
      else pure ⟨some best, events, dispatched⟩
  | idx, best, events, dispatched, chunk :: rest =>
      if cancel idx then pure ⟨none, events ++ [.cancelled], dispatched⟩
      else do
        let r ← TestCase.test_case tc chunk
        computeLoop tc cancel (idx + 1) (apply_async_callback best r)
          (events ++ [.step]) (dispatched ++ [chunk]) rest

/-- ShieldTester.compute (lines 210-383): guard the empty inputs ("Can't test
nothing" returns `None` with no cancellation event), clamp the booster count,
enumerate the booster combinations, optionally apply the preliminary filter
(`prelim > 0` and different from the loadout count), then run the chunked
evaluation loop.  `self.__cancel = False` at entry: `cancel` models the values
another thread has stored by each later check. -/
def compute (tc0 : TestCase) (cancel : ℕ → Bool) (prelim : ℤ) :
    Except PyErr ComputeTrace := do
  if tc0.shield_booster_variants.isEmpty ∨ tc0.loadout_list.isEmpty then
    pure ⟨none, [], []⟩
  else
    let combos := booster_combinations tc0
    let tc ←
      if prelim > 0 ∧ prelim ≠ (tc0.loadout_list.length : ℤ) then do
        let filtered ← prefilterSelect tc0 prelim.toNat
        pure { tc0 with loadout_list := filtered }
      else pure tc0
    computeLoop tc cancel 0 {} [] [] (chunks MP_CHUNK_SIZE combos)

end ShieldTester

/-- Round-half-to-even on rationals, the rounding mode of Python `round`
(the source rounds on binary floats; the embedding rounds the exact value). -/
def roundHalfEven (x : ℚ) : ℤ :=
  let f := ⌊x⌋
  if x - f < 1/2 then f
  else if x - f > 1/2 then f + 1
  else if Even f then f else f + 1

/-- Python `round(x, 4)` on the exact value. -/
def pyRound4 (x : ℚ) : ℚ := (roundHalfEven (x * 10000) : ℚ) / 10000

/-- CPython `math.log`: raises `ValueError` (math domain error) on a
non-positive argument; the transcendental value itself is abstracted by the
parameter `mlog` (exact real logarithms are not rational). -/
def pyLog (mlog : ℚ → ℚ) (q : ℚ) : Except PyErr ℚ :=
  if q ≤ 0 then .error .valueError else .ok (mlog q)

namespace LoadOut

/-- LoadOut.__calculate_shield_strength (lines 17-36 of LoadOut.py), in
Python's left-to-right evaluation order.  Divisions raise `ZeroDivisionError`
on a zero denominator and `math.log` raises on a non-positive argument exact
as in CPython; the transcendental `math.log` / `math.pow` values are
abstracted by `mlog` / `mpow` (every theorem about this function holds for
all instantiations).  The `if self.shield_generator and self.ship` guard is
always true here since the embedding has no `None` objects. -/
def calculate_shield_strength (mlog : ℚ → ℚ) (mpow : ℚ → ℚ → ℚ)
    (sg : ShieldGenerator) (ship : StarShip) : Except PyErr ℚ := do
  let min_mass := sg.minmass
  let opt_mass := sg.optmass
  let max_mass := sg.maxmass
  let min_mul := sg.minmul
  let opt_mul := sg.optmul
  let max_mul := sg.maxmul
  let hull_mass := ship.hull_mass
  let xnorm := min 1 (← qdiv (max_mass - hull_mass) (max_mass - min_mass))
  let lognum ← pyLog mlog (← qdiv (opt_mul - min_mul) (max_mul - min_mul))
  let logden ← pyLog mlog (min 1 (← qdiv (max_mass - opt_mass) (max_mass - min_mass)))
  let expnt ← qdiv lognum logden
  let ynorm := mpow xnorm expnt
  let mul := min_mul + ynorm * (max_mul - min_mul)
  pure (pyRound4 (ship.base_shield_strength * mul))

/-- LoadOut.__init__: constructing a loadout precomputes the shield strength,
so a malformed mass curve raises here, at construction time. -/
def mkLoadOut (mlog : ℚ → ℚ) (mpow : ℚ → ℚ → ℚ) (sg : ShieldGenerator)
    (ship : StarShip) : Except PyErr LoadOut := do
  let s ← calculate_shield_strength mlog mpow sg ship
  pure ⟨sg, ship, s, none⟩

end LoadOut

/-- Engineering recipe features (the json `features` dictionary): each key is
optional, matching the `if key in features` test of
`ShieldGenerator._calculate_and_set_engineering`.  Only the keys that
`_apply_engineering` reads are listed. -/
structure EngineeringFeatures where
  integrity : Option ℚ := none
  brokenregen : Option ℚ := none
  regen : Option ℚ := none
  distdraw : Option ℚ := none
  power : Option ℚ := none
  optmul : Option ℚ := none
  kinres : Option ℚ := none
  thermres : Option ℚ := none
  explres : Option ℚ := none
deriving DecidableEq, Repr

/-- A blueprint or experimental-effect recipe (string metadata omitted). -/
structure Blueprint where
  features : EngineeringFeatures
deriving DecidableEq, Repr

namespace ShieldGenerator

/-- Value computation of `ShieldGenerator._calculate_and_set_engineering`
(`CALC_NORMAL = 1`, `CALC_RES = 2`, `CALC_MASS = 3`). -/
def applyFeature (r v : ℚ) (calc_type : ℕ) (is_percentage : Bool) : ℚ :=
  let v := if is_percentage then v / 100 else v
  let r :=
    if calc_type = 2 then 1 - (1 - r) * (1 - v)
    else if calc_type = 3 then r * 100 * (1 + v) / 100
    else r * (1 + v)
  pyRound4 r

/-- The `if key in features` guard of `_calculate_and_set_engineering`. -/
def applyOpt (r : ℚ) (v : Option ℚ) (calc_type : ℕ) (is_percentage : Bool) : ℚ :=
  match v with
  | some v => applyFeature r v calc_type is_percentage
  | none => r

/-- ShieldGenerator._apply_engineering: note that `optmul`, `minmul` and
`maxmul` are all driven by the single `optmul` feature key with `CALC_MASS`,
and that no feature ever touches `minmass`, `optmass` or `maxmass`. -/
def apply_engineering (sg : ShieldGenerator) (f : EngineeringFeatures)
    (is_percentage : Bool) : ShieldGenerator :=
  { sg with
    integrity := applyOpt sg.integrity f.integrity 1 false
    brokenregen := applyOpt sg.brokenregen f.brokenregen 1 false
    regen := applyOpt sg.regen f.regen 1 false
    distdraw := applyOpt sg.distdraw f.distdraw 1 false
    power := applyOpt sg.power f.power 1 false
    optmul := applyOpt sg.optmul f.optmul 3 false
    minmul := applyOpt sg.minmul f.optmul 3 false
    maxmul := applyOpt sg.maxmul f.optmul 3 false
    kinres := applyOpt sg.kinres f.kinres 2 is_percentage
    thermres := applyOpt sg.thermres f.thermres 2 is_percentage
    explres := applyOpt sg.explres f.explres 2 is_percentage }

/-- ShieldGenerator.create_engineered_shield_generators: every blueprint,
then every experimental effect on top (experimental features are
percentages). -/
def create_engineered_shield_generators (prototype : ShieldGenerator)
    (blueprints experimentals : List Blueprint) : List ShieldGenerator :=
  blueprints.flatMap fun blueprint =>
    let engineered_sg := apply_engineering prototype blueprint.features false
    experimentals.map fun experimental =>
      apply_engineering engineered_sg experimental.features true

end ShieldGenerator

namespace ShieldTester

/-- The shield-generator section of `ShieldTester.load_data` (lines 441-451):
each parsed module becomes its list of engineered variants.  `create_from_json`
is a plain field copy, so the parsed module is the `ShieldGenerator` record
itself.  The type/class dictionary bookkeeping is omitted; the essential
observable is the list of generator variants produced — note the absence of
any validation of the mass-curve fields. -/
def load_data_generators (modules : List ShieldGenerator)
    (blueprints experimentals : List Blueprint) : List ShieldGenerator :=
  modules.flatMap fun generator =>
    ShieldGenerator.create_engineered_shield_generators generator blueprints experimentals

end ShieldTester

/-! Proof-layer abbreviations (not part of the embedding): per-candidate
quantities of the evaluation loops, used to state hypotheses and invariants
about `TestCase.test_case` and `ShieldTester.compute`. -/

/-- Resolved booster objects of a combination (equals the Python list
comprehension `[variants[x] for x in combination]` for in-range indices). -/
def boostersOf (tc : TestCase) (combination : List ℕ) : List ShieldBoosterVariant :=
  combination.filterMap (fun x => tc.shield_booster_variants[x]?)

/-- Net incoming DPS of one (booster combination, loadout) candidate, as
computed inside `TestCase.test_case`. -/
def cand_dps (tc : TestCase) (combination : List ℕ) (loadout : LoadOut) : ℚ :=
  let m := ShieldBoosterVariant.calculate_booster_bonuses (boostersOf tc combination)
  tc.damage_effectiveness *
      (tc.explosive_dps * ((1 - loadout.shield_generator.explres) * m.1) +
       tc.kinetic_dps * ((1 - loadout.shield_generator.kinres) * m.2.1) +
       tc.thermal_dps * ((1 - loadout.shield_generator.thermres) * m.2.2.1) +
       tc.absolute_dps) -
    loadout.shield_generator.regen * (1 - tc.damage_effectiveness)

/-- Boosted shield hitpoints of one candidate. -/
def cand_hp (tc : TestCase) (combination : List ℕ) (loadout : LoadOut) : ℚ :=
  loadout.shield_strength *
    (ShieldBoosterVariant.calculate_booster_bonuses (boostersOf tc combination)).2.2.2

/-- Total hitpoint pool of one candidate (shield + cell bank + guardian). -/
def cand_hp_total (tc : TestCase) (combination : List ℕ) (loadout : LoadOut) : ℚ :=
  cand_hp tc combination loadout + tc.scb_hitpoints + tc.guardian_hitpoints

/-- Net DPS computed by the inner loop of `test_case` for given booster
modifiers. -/
def pl_dps (tc : TestCase) (em km tm : ℚ) (lo : LoadOut) : ℚ :=
  tc.damage_effectiveness *
      (tc.explosive_dps * ((1 - lo.shield_generator.explres) * em) +
       tc.kinetic_dps * ((1 - lo.shield_generator.kinres) * km) +
       tc.thermal_dps * ((1 - lo.shield_generator.thermres) * tm) +
       tc.absolute_dps) -
    lo.shield_generator.regen * (1 - tc.damage_effectiveness)

/-- Boosted hitpoints computed by the inner loop of `test_case`. -/
def pl_hp (hb : ℚ) (lo : LoadOut) : ℚ := lo.shield_strength * hb

/-- Survival time computed by the inner loop of `test_case` (total `ℚ`
division; meaningful only when the net DPS is nonzero). -/
def pl_survival (tc : TestCase) (em km tm hb : ℚ) (lo : LoadOut) : ℚ :=
  (pl_hp hb lo + tc.scb_hitpoints + tc.guardian_hitpoints) / pl_dps tc em km tm lo

/-- Pure state transformer equal to `TestCase.processLoadout` when the net
DPS is nonzero. -/
def plStep (tc : TestCase) (boosters : List ShieldBoosterVariant)
    (em km tm hb : ℚ) (st : TCState) (lo : LoadOut) : TCState :=
  let actual_dps := pl_dps tc em km tm lo
  let hp := pl_hp hb lo
  let survival_time := pl_survival tc em km tm hb lo
  if actual_dps > 0 ∧ st.best_survival_time ≥ 0 then
    if survival_time > st.best_survival_time then
      ⟨survival_time, st.lowest_dps, some lo, some boosters, hp⟩
    else st
  else if actual_dps ≤ 0 then
    if st.lowest_dps > actual_dps ∨
        (isclose st.lowest_dps actual_dps ∧ st.best_hitpoints < hp) then
      ⟨survival_time, actual_dps, some lo, some boosters, hp⟩
    else st
  else st

/-- The `(actual_dps, loadout)` pairs the pre-filter collects into
`preliminary_list_survived`, in original loadout order. -/
def prefilterSurvived (tc : TestCase) : List (ℚ × LoadOut) :=
  tc.loadout_list.filterMap (fun lo =>
    if pl_dps tc 1 1 1 lo < 0 then some (pl_dps tc 1 1 1 lo, lo) else none)

/-- The `(survival_time, loadout)` pairs the pre-filter collects into
`preliminary_list`, in original loadout order. -/
def prefilterFinite (tc : TestCase) : List (ℚ × LoadOut) :=
  tc.loadout_list.filterMap (fun lo =>
    if 0 < pl_dps tc 1 1 1 lo then some (pl_survival tc 1 1 1 1 lo, lo) else none)

/-- A `test_case` state that has recorded a surviving (never-dies) candidate. -/
def SurvSt (st : TCState) : Prop :=
  st.best_survival_time < 0 ∧ st.lowest_dps < 0 ∧ st.best_loadout.isSome = true

/-- A `test_case` state that has recorded no surviving candidate. -/
def NoSurvSt (st : TCState) : Prop :=
  st.lowest_dps = 10000 ∧ 0 ≤ st.best_survival_time

/-- Selection of the better of two states by strict survival-time comparison
(the effect of the finite-survival branch of the loop). -/
def stMerge (a b : TCState) : TCState :=
  if b.best_survival_time > a.best_survival_time then b else a

/-- The state written when a candidate is recorded by the finite-survival
branch from a state with untouched `lowest_dps`. -/
def candSt (tc : TestCase) (boosters : List ShieldBoosterVariant)
    (em km tm hb : ℚ) (lo : LoadOut) : TCState :=
  ⟨pl_survival tc em km tm hb lo, 10000, some lo, some boosters, pl_hp hb lo⟩

/-- Candidate states of one booster combination, in inner-loop order. -/
def candSts (tc : TestCase) (c : List ℕ) : List TCState :=
  let bs := boostersOf tc c
  let m := ShieldBoosterVariant.calculate_booster_bonuses bs
  tc.loadout_list.map (candSt tc bs m.1 m.2.1 m.2.2.1 m.2.2.2)

/-- Candidate states of a chunk of combinations, in evaluation order. -/
def chunkStates (tc : TestCase) (combos : List (List ℕ)) : List TCState :=
  combos.flatMap (candSts tc)

/-- The `TestResult` assembled from a final loop state (loadout `none` when
nothing was recorded — the case in which the source raises instead). -/
def stResult (st : TCState) : TestResult :=
  ⟨st.best_loadout.map (fun lo => { lo with boosters := st.best_shield_booster_loadout }),
   st.best_survival_time, st.lowest_dps, st.best_hitpoints⟩

/-- A result recording a surviving (never-dies) candidate. -/
def RSurv (r : TestResult) : Prop := r.survival_time < 0 ∧ r.incoming_dps < 0

/-- A result recording no surviving candidate (the initial
`TestResult(survival_time=0)` accumulator included). -/
def RFin (r : TestResult) : Prop := 0 ≤ r.survival_time ∧ 0 ≤ r.incoming_dps

/-! Concrete fixtures used by the counterexample and witness theorems. -/

/-- Ship fixture: one utility slot. -/
def shipX : StarShip := ⟨100, 50, 1⟩

/-- Generator fixture with regen 4 and no resistances. -/
def sgRegen4 : ShieldGenerator := { regen := 4 }

/-- Loadout fixture: 100 hitpoints, regen 4. -/
def loX : LoadOut := ⟨sgRegen4, shipX, 100, none⟩

/-- Booster fixture `B`: neutral modifiers. -/
def vB : ShieldBoosterVariant := ⟨0, 1, 1, 1, false⟩

/-- Booster fixture `D`: triples kinetic damage taken (a finite-survival
candidate, dominated). -/
def vD : ShieldBoosterVariant := ⟨0, 1, 3, 1, false⟩

/-- Booster fixture `Y`: kinetic modifier `1 + 5e-9` (net DPS within the
`1e-8` relative tolerance of `B`'s) and +100% hitpoints. -/
def vY : ShieldBoosterVariant := ⟨1, 1, 1 + 1/200000000, 1, false⟩

/-- Booster fixture `Z`: kinetic modifier `1 + 2e-9` (between `B` and `Y`),
hitpoints equal to `B`'s. -/
def vZ : ShieldBoosterVariant := ⟨0, 1, 1 + 1/500000000, 1, false⟩

/-- Search fixture for claim C1: half effectiveness, kinetic DPS 2, one
loadout, four booster variants, one booster slot.  Unboosted net DPS is
`km - 2` for kinetic modifier `km`, so `B`, `Y`, `Z` all survive forever with
net DPS within tolerance of each other while `D` dies. -/
def tcC1 : TestCase :=
  { ship := shipX, damage_effectiveness := 1/2, kinetic_dps := 2,
    shield_booster_variants := [vB, vD, vY, vZ], loadout_list := [loX],
    number_of_boosters_to_test := 1 }

/-- Ship fixture with zero base strength. -/
def ship0 : StarShip := ⟨0, 0, 0⟩

/-- Loadout fixture for C3: survives forever (net DPS `-1`) but with zero
shield strength, so its recorded survival time is `0/(-1) = -0.0 = 0`. -/
def loSurv0 : LoadOut := ⟨sgRegen4, ship0, 0, none⟩

/-- Loadout fixture for C3: dies (net DPS `1`) after 100 seconds. -/
def loFin100 : LoadOut := ⟨{}, ship0, 100, none⟩

/-- Search fixture for claim C3: a surviving candidate with zero hitpoint
pool followed by a dying candidate. -/
def tcC3 : TestCase :=
  { ship := ship0, damage_effectiveness := 1/2, kinetic_dps := 2,
    shield_booster_variants := [], loadout_list := [loSurv0, loFin100],
    number_of_boosters_to_test := 0 }

/-- Search fixture for claim C2: zero damage effectiveness and zero regen
give net DPS exactly `0`. -/
def tcC2 : TestCase :=
  { ship := shipX, explosive_dps := 10, kinetic_dps := 10, thermal_dps := 10,
    absolute_dps := 5, shield_booster_variants := [],
    loadout_list := [⟨{}, shipX, 300, none⟩], number_of_boosters_to_test := 0 }

/-- Loadout fixture for C5 with 100 hitpoints (same generator as `loB5`). -/
def loA5 : LoadOut := ⟨sgRegen4, ship0, 100, none⟩

/-- Loadout fixture for C5 with 200 hitpoints (same net DPS as `loA5`). -/
def loB5 : LoadOut := ⟨sgRegen4, ship0, 200, none⟩

/-- Search fixture for claim C5: two loadouts with identical (negative) net
DPS `-1` and different hitpoints, listed lower-hitpoints first. -/
def tcC5 : TestCase :=
  { ship := ship0, damage_effectiveness := 1/2, kinetic_dps := 2,
    shield_booster_variants := [vB], loadout_list := [loA5, loB5],
    number_of_boosters_to_test := 0 }

/-- Module fixture for claim C6 with `maxmass == minmass` (zero denominator
in the strength curve). -/
def sgBadMin : ShieldGenerator :=
  { maxmass := 100, minmass := 100, optmass := 70, maxmul := 3, minmul := 6/5, optmul := 9/5 }

/-- Module fixture for claim C6 with `maxmass == optmass` (zero argument to
`math.log` in the strength curve). -/
def sgBadOpt : ShieldGenerator :=
  { maxmass := 220, minmass := 80, optmass := 220, maxmul := 3, minmul := 6/5, optmul := 9/5 }

/-- Blueprint fixture (a +20% `optmul` recipe). -/
def bpX : Blueprint := ⟨{ optmul := some (1/5) }⟩

/-- Experimental-effect fixture (a 2-percent `kinres` recipe). -/
def exX : Blueprint := ⟨{ kinres := some 2 }⟩

/-- Ship fixture matching the spec's strength-curve regression example. -/
def shipC6 : StarShip := ⟨130, 150, 4⟩

/-! Theorems.  Each claim of the specification gets one theorem below;
helper lemmas precede the claim theorems that use them. -/

lemma except_bind_ok {ε α β : Type} (a : α) (f : α → Except ε β) :
    (Except.ok a >>= f) = f a := rfl

lemma except_bind_error {ε α β : Type} (e : ε) (f : α → Except ε β) :
    (Except.error e >>= f : Except ε β) = Except.error e := rfl

lemma except_pure {ε α : Type} (a : α) : (pure a : Except ε α) = Except.ok a := rfl

lemma processLoadout_eq (tc : TestCase) (boosters : List ShieldBoosterVariant)
    (em km tm hb : ℚ) (st : TCState) (lo : LoadOut) :
    TestCase.processLoadout tc boosters em km tm hb st lo =
      if pl_dps tc em km tm lo = 0 then .error .zeroDivision
      else .ok (plStep tc boosters em km tm hb st lo) := by
  by_cases h : pl_dps tc em km tm lo = 0
  · rw [if_pos h]
    unfold TestCase.processLoadout qdiv
    unfold pl_dps at h
    dsimp only
    rw [if_pos h]
    rfl
  · rw [if_neg h]
    unfold TestCase.processLoadout qdiv plStep pl_survival pl_hp
    unfold pl_dps at h ⊢
    dsimp only
    rw [if_neg h]
    dsimp only [Bind.bind, Except.bind]
    split_ifs <;> rfl

lemma not_isclose_of_neg_nonneg {a b : ℚ} (ha : a < 0) (hb : 0 ≤ b) : ¬ isclose a b := by
  intro h
  unfold isclose pyAbs pyMax relTol at h
  split_ifs at h <;> linarith

lemma plStep_skip_of_surv (tc : TestCase) (bs : List ShieldBoosterVariant)
    (em km tm hb : ℚ) (st : TCState) (lo : LoadOut)
    (hst : st.best_survival_time < 0) (hdps : 0 < pl_dps tc em km tm lo) :
    plStep tc bs em km tm hb st lo = st := by
  simp only [plStep]
  rw [if_neg (by rintro ⟨-, hge⟩; linarith), if_neg (not_le.mpr hdps)]

lemma plStep_surv (tc : TestCase) (bs : List ShieldBoosterVariant)
    (em km tm hb : ℚ) (st : TCState) (lo : LoadOut)
    (hdps : pl_dps tc em km tm lo < 0)
    (hhp : 0 < pl_hp hb lo + tc.scb_hitpoints + tc.guardian_hitpoints)
    (hst : NoSurvSt st ∨ SurvSt st) :
    SurvSt (plStep tc bs em km tm hb st lo) := by
  have hsurvneg : pl_survival tc em km tm hb lo < 0 := by
    unfold pl_survival
    exact div_neg_of_pos_of_neg hhp hdps
  simp only [plStep]
  rw [if_neg (by rintro ⟨h, -⟩; linarith), if_pos (le_of_lt hdps)]
  rcases hst with ⟨hl, _⟩ | ⟨h1, h2, h3⟩
  · rw [if_pos (Or.inl (by rw [hl]; linarith))]
    exact ⟨hsurvneg, hdps, rfl⟩
  · split_ifs with hc
    · exact ⟨hsurvneg, hdps, rfl⟩
    · exact ⟨h1, h2, h3⟩

lemma plStep_fin (tc : TestCase) (bs : List ShieldBoosterVariant)
    (em km tm hb : ℚ) (st : TCState) (lo : LoadOut)
    (hdps : 0 < pl_dps tc em km tm lo) (hst : NoSurvSt st) :
    NoSurvSt (plStep tc bs em km tm hb st lo) := by
  simp only [plStep]
  rw [if_pos ⟨hdps, hst.2⟩]
  split_ifs with hc
  · exact ⟨hst.1, by have := hst.2; simp only [ge_iff_le] at *; linarith⟩
  · exact hst

lemma foldLoadouts_inv (tc : TestCase) (bs : List ShieldBoosterVariant) (em km tm hb : ℚ) :
    ∀ (los : List LoadOut) (st st' : TCState),
      (∀ lo ∈ los, pl_dps tc em km tm lo ≤ 0 →
        pl_dps tc em km tm lo < 0 ∧
          0 < pl_hp hb lo + tc.scb_hitpoints + tc.guardian_hitpoints) →
      (NoSurvSt st ∨ SurvSt st) →
      los.foldlM (TestCase.processLoadout tc bs em km tm hb) st = .ok st' →
      (NoSurvSt st' ∨ SurvSt st') ∧ (SurvSt st → SurvSt st') ∧
        ((∃ lo ∈ los, pl_dps tc em km tm lo ≤ 0) → SurvSt st') := by
  intro los
  induction los with
  | nil =>
    intro st st' _ hst h
    rw [List.foldlM_nil, except_pure, Except.ok.injEq] at h
    subst h
    refine ⟨hst, fun hs => hs, ?_⟩
    rintro ⟨lo, hm, -⟩
    exact absurd hm (List.not_mem_nil lo)
  | cons lo los ih =>
    intro st st' hz hst h
    rw [List.foldlM_cons, processLoadout_eq] at h
    by_cases hd : pl_dps tc em km tm lo = 0
    · rw [if_pos hd, except_bind_error] at h
      exact absurd h (by simp)
    · rw [if_neg hd, except_bind_ok] at h
      have hztail : ∀ lo' ∈ los, pl_dps tc em km tm lo' ≤ 0 →
          pl_dps tc em km tm lo' < 0 ∧
            0 < pl_hp hb lo' + tc.scb_hitpoints + tc.guardian_hitpoints :=
        fun lo' hm => hz lo' (List.mem_cons_of_mem lo hm)
      rcases lt_trichotomy (pl_dps tc em km tm lo) 0 with hneg | hzero | hpos
      · have h1 : SurvSt (plStep tc bs em km tm hb st lo) :=
          plStep_surv tc bs em km tm hb st lo hneg
            (hz lo (List.mem_cons_self lo los) (le_of_lt hneg)).2 hst
        obtain ⟨hi, hs, -⟩ := ih _ st' hztail (Or.inr h1) h
        exact ⟨hi, fun _ => hs h1, fun _ => hs h1⟩
      · exact absurd hzero hd
      · by_cases hS : SurvSt st
        · rw [plStep_skip_of_surv tc bs em km tm hb st lo hS.1 hpos] at h
          obtain ⟨hi, hs, hex⟩ := ih _ st' hztail hst h
          refine ⟨hi, hs, ?_⟩
          rintro ⟨lo', hm, hle⟩
          rcases List.mem_cons.mp hm with rfl | hm'
          · linarith
          · exact hex ⟨lo', hm', hle⟩
        · have hN : NoSurvSt st := hst.resolve_right hS
          have h1 := plStep_fin tc bs em km tm hb st lo hpos hN
          obtain ⟨hi, hs, hex⟩ := ih _ st' hztail (Or.inl h1) h
          refine ⟨hi, fun hSS => absurd hSS hS, ?_⟩
          rintro ⟨lo', hm, hle⟩
          rcases List.mem_cons.mp hm with rfl | hm'
          · linarith
          · exact hex ⟨lo', hm', hle⟩


lemma except_mapM_ok_eq {vs : List ShieldBoosterVariant} :
    ∀ {l : List ℕ} {bs : List ShieldBoosterVariant},
      l.mapM (pyIndex vs) = .ok bs → bs = l.filterMap (fun x => vs[x]?) := by
  intro l
  induction l with
  | nil =>
    intro bs h
    rw [List.mapM_nil, except_pure, Except.ok.injEq] at h
    simp [← h]
  | cons x xs ih =>
    intro bs h
    rw [List.mapM_cons] at h
    cases hx : vs[x]? with
    | none =>
      rw [show pyIndex vs x = .error .valueError by simp [pyIndex, hx],
        except_bind_error] at h
      exact absurd h (by simp)
    | some a =>
      rw [show pyIndex vs x = .ok a by simp [pyIndex, hx], except_bind_ok] at h
      cases hxs : xs.mapM (pyIndex vs) with
      | error e => rw [hxs, except_bind_error] at h; exact absurd h (by simp)
      | ok ys =>
        rw [hxs, except_bind_ok, except_pure, Except.ok.injEq] at h
        rw [← h, List.filterMap_cons, hx, ih hxs]

lemma processCombination_inv (tc : TestCase) (st st' : TCState) (c : List ℕ)
    (hz : ∀ lo ∈ tc.loadout_list, cand_dps tc c lo ≤ 0 →
      cand_dps tc c lo < 0 ∧ 0 < cand_hp_total tc c lo)
    (hst : NoSurvSt st ∨ SurvSt st)
    (h : TestCase.processCombination tc st c = .ok st') :
    (NoSurvSt st' ∨ SurvSt st') ∧ (SurvSt st → SurvSt st') ∧
      ((∃ lo ∈ tc.loadout_list, cand_dps tc c lo ≤ 0) → SurvSt st') := by
  unfold TestCase.processCombination at h
  cases hm : c.mapM (pyIndex tc.shield_booster_variants) with
  | error e => rw [hm, except_bind_error] at h; exact absurd h (by simp)
  | ok bs =>
    rw [hm, except_bind_ok] at h
    have hbs : bs = boostersOf tc c := except_mapM_ok_eq hm
    subst hbs
    exact foldLoadouts_inv tc _ _ _ _ _ tc.loadout_list st st' hz hst h

lemma foldCombos_inv (tc : TestCase) :
    ∀ (combos : List (List ℕ)) (st st' : TCState),
      (∀ c ∈ combos, ∀ lo ∈ tc.loadout_list, cand_dps tc c lo ≤ 0 →
        cand_dps tc c lo < 0 ∧ 0 < cand_hp_total tc c lo) →
      (NoSurvSt st ∨ SurvSt st) →
      combos.foldlM (TestCase.processCombination tc) st = .ok st' →
      (NoSurvSt st' ∨ SurvSt st') ∧ (SurvSt st → SurvSt st') ∧
        ((∃ c ∈ combos, ∃ lo ∈ tc.loadout_list, cand_dps tc c lo ≤ 0) → SurvSt st') := by
  intro combos
  induction combos with
  | nil =>
    intro st st' _ hst h
    rw [List.foldlM_nil, except_pure, Except.ok.injEq] at h
    subst h
    refine ⟨hst, fun hs => hs, ?_⟩
    rintro ⟨c, hm, -⟩
    exact absurd hm (List.not_mem_nil c)
  | cons c combos ih =>
    intro st st' hz hst h
    rw [List.foldlM_cons] at h
    cases h1 : TestCase.processCombination tc st c with
    | error e => rw [h1, except_bind_error] at h; exact absurd h (by simp)
    | ok st1 =>
      rw [h1, except_bind_ok] at h
      obtain ⟨hi1, hs1, hex1⟩ :=
        processCombination_inv tc st st1 c (hz c (List.mem_cons_self c combos)) hst h1
      obtain ⟨hi, hs, hex⟩ := ih st1 st'
        (fun c' hm => hz c' (List.mem_cons_of_mem c hm)) hi1 h
      refine ⟨hi, fun hS => hs (hs1 hS), ?_⟩
      rintro ⟨c', hm, hlo⟩
      rcases List.mem_cons.mp hm with rfl | hm'
      · exact hs (hex1 hlo)
      · exact hex ⟨c', hm', hlo⟩

lemma test_case_inv (tc : TestCase) (combos : List (List ℕ)) (r : TestResult)
    (hz : ∀ c ∈ combos, ∀ lo ∈ tc.loadout_list, cand_dps tc c lo ≤ 0 →
      cand_dps tc c lo < 0 ∧ 0 < cand_hp_total tc c lo)
    (h : TestCase.test_case tc combos = .ok r) :
    (RFin r ∨ RSurv r) ∧
      ((∃ c ∈ combos, ∃ lo ∈ tc.loadout_list, cand_dps tc c lo ≤ 0) → RSurv r) := by
  unfold TestCase.test_case at h
  cases hf : combos.foldlM (TestCase.processCombination tc) tcInit with
  | error e => rw [hf, except_bind_error] at h; exact absurd h (by simp)
  | ok st =>
    rw [hf, except_bind_ok] at h
    obtain ⟨hi, -, hex⟩ := foldCombos_inv tc combos tcInit st hz
      (Or.inl (by constructor <;> norm_num [tcInit])) hf
    cases hlo : st.best_loadout with
    | none =>
      rw [hlo] at h
      simp only [show (throw PyErr.attributeError : Except PyErr TestResult) =
        .error .attributeError from rfl] at h
      exact absurd h (by simp)
    | some lo =>
      rw [hlo] at h
      simp only [except_pure, Except.ok.injEq] at h
      subst h
      constructor
      · rcases hi with ⟨h1, h2⟩ | ⟨h1, h2, -⟩
        · exact Or.inl ⟨h2, by rw [h1]; norm_num⟩
        · exact Or.inr ⟨h1, h2⟩
      · intro hsome
        obtain ⟨h1, h2, -⟩ := hex hsome
        exact ⟨h1, h2⟩

lemma apply_async_pres_surv (best r : TestResult) (hb : RSurv best)
    (hr : RFin r ∨ RSurv r) :
    RSurv (ShieldTester.apply_async_callback best r) := by
  unfold ShieldTester.apply_async_callback
  rw [if_pos hb.1]
  rcases hr with ⟨h1, h2⟩ | ⟨h1, h2⟩
  · rw [if_neg]
    · exact hb
    · rintro (hgt | ⟨hcl, -⟩)
      · linarith [hb.2]
      · exact not_isclose_of_neg_nonneg hb.2 h2 hcl
  · split_ifs with hc
    · exact ⟨h1, h2⟩
    · exact hb

lemma apply_async_fin_or_surv (best r : TestResult) (hb : RFin best ∨ RSurv best)
    (hr : RFin r ∨ RSurv r) :
    (RFin (ShieldTester.apply_async_callback best r) ∨
      RSurv (ShieldTester.apply_async_callback best r)) ∧
      (RSurv best → RSurv (ShieldTester.apply_async_callback best r)) ∧
      (RSurv r → RSurv (ShieldTester.apply_async_callback best r)) := by
  rcases hb with hbf | hbs
  · unfold ShieldTester.apply_async_callback
    rw [if_neg (not_lt.mpr hbf.1)]
    refine ⟨?_, fun hS => absurd hS.1 (not_lt.mpr hbf.1), ?_⟩
    · rcases hr with hrf | hrs
      · rw [if_neg (not_lt.mpr hrf.1)]
        split_ifs with hc
        · exact Or.inl hrf
        · exact Or.inl hbf
      · rw [if_pos hrs.1]
        exact Or.inr hrs
    · intro hrs
      rw [if_pos hrs.1]
      exact hrs
  · have h := apply_async_pres_surv best r hbs hr
    exact ⟨Or.inr h, fun _ => h, fun _ => h⟩

lemma foldResults_surv :
    ∀ (rs : List TestResult) (acc : TestResult),
      (∀ r ∈ rs, RFin r ∨ RSurv r) → (RFin acc ∨ RSurv acc) →
      (RSurv acc ∨ ∃ r ∈ rs, RSurv r) →
      RSurv (rs.foldl ShieldTester.apply_async_callback acc) := by
  intro rs
  induction rs with
  | nil =>
    intro acc _ _ hex
    rcases hex with h | ⟨r, hm, -⟩
    · exact h
    · exact absurd hm (List.not_mem_nil r)
  | cons r rs ih =>
    intro acc hall hacc hex
    rw [List.foldl_cons]
    obtain ⟨hi, hsb, hsr⟩ :=
      apply_async_fin_or_surv acc r hacc (hall r (List.mem_cons_self r rs))
    refine ih _ (fun r' hm => hall r' (List.mem_cons_of_mem r hm)) hi ?_
    rcases hex with hS | ⟨r', hm, hrS⟩
    · exact Or.inl (hsb hS)
    · rcases List.mem_cons.mp hm with rfl | hm'
      · exact Or.inl (hsr hrS)
      · exact Or.inr ⟨r', hm', hrS⟩

lemma except_mapM_forall2 {α β : Type} {f : α → Except PyErr β} :
    ∀ {l : List α} {ys : List β},
      l.mapM f = .ok ys → List.Forall₂ (fun x y => f x = .ok y) l ys := by
  intro l
  induction l with
  | nil =>
    intro ys h
    rw [List.mapM_nil, except_pure, Except.ok.injEq] at h
    rw [← h]
    exact List.Forall₂.nil
  | cons x xs ih =>
    intro ys h
    rw [List.mapM_cons] at h
    cases hx : f x with
    | error e => rw [hx, except_bind_error] at h; exact absurd h (by simp)
    | ok y =>
      rw [hx, except_bind_ok] at h
      cases hxs : xs.mapM f with
      | error e => rw [hxs, except_bind_error] at h; exact absurd h (by simp)
      | ok ys' =>
        rw [hxs, except_bind_ok, except_pure, Except.ok.injEq] at h
        rw [← h]
        exact List.Forall₂.cons hx (ih hxs)

lemma forall2_mem_right {α β : Type} {R : α → β → Prop} :
    ∀ {l : List α} {ys : List β}, List.Forall₂ R l ys →
      ∀ y ∈ ys, ∃ x ∈ l, R x y := by
  intro l ys h
  induction h with
  | nil => intro y hy; exact absurd hy (List.not_mem_nil y)
  | cons hR hrest ih =>
    intro y hy
    rcases List.mem_cons.mp hy with rfl | hy'
    · exact ⟨_, List.mem_cons_self _ _, hR⟩
    · obtain ⟨x, hx, hRx⟩ := ih y hy'
      exact ⟨x, List.mem_cons_of_mem _ hx, hRx⟩

lemma forall2_mem_left {α β : Type} {R : α → β → Prop} :
    ∀ {l : List α} {ys : List β}, List.Forall₂ R l ys →
      ∀ x ∈ l, ∃ y ∈ ys, R x y := by
  intro l ys h
  induction h with
  | nil => intro x hx; exact absurd hx (List.not_mem_nil x)
  | cons hR hrest ih =>
    intro x hx
    rcases List.mem_cons.mp hx with rfl | hx'
    · exact ⟨_, List.mem_cons_self _ _, hR⟩
    · obtain ⟨y, hy, hRy⟩ := ih x hx'
      exact ⟨y, List.mem_cons_of_mem _ hy, hRy⟩

/-- Claim C3 amended: "survives forever" dominance holds provided every
candidate with `net_dps ≤ 0` has strictly negative net DPS and a strictly
positive total hitpoint pool (the counterexample shows the boundary cases
`net_dps = 0` — a crash — and zero hitpoint pool — recorded survival `0` —
break it).  Under these conditions, for every chunk partition and therefore
regardless of the order chunk results arrive in the fold, a successful
`ShieldTester.compute` run containing at least one survives-forever candidate
returns a survives-forever result: the running best never reverts to a
finite-survival result. -/
theorem claim_C3_amended (tc : TestCase) (parts : List (List (List ℕ)))
    (tr : TestResult)
    (hz : ∀ c ∈ parts.flatten, ∀ lo ∈ tc.loadout_list, cand_dps tc c lo ≤ 0 →
      cand_dps tc c lo < 0 ∧ 0 < cand_hp_total tc c lo)
    (hex : ∃ c ∈ parts.flatten, ∃ lo ∈ tc.loadout_list, cand_dps tc c lo ≤ 0)
    (h : ShieldTester.computeCore tc parts = .ok tr) :
    tr.survival_time < 0 ∧ tr.incoming_dps < 0 := by
  unfold ShieldTester.computeCore at h
  cases hm : parts.mapM (TestCase.test_case tc) with
  | error e => rw [hm, except_bind_error] at h; exact absurd h (by simp)
  | ok rs =>
    rw [hm, except_bind_ok, except_pure, Except.ok.injEq] at h
    have hf2 := except_mapM_forall2 hm
    have hzc : ∀ c ∈ parts, ∀ combo ∈ c, ∀ lo ∈ tc.loadout_list,
        cand_dps tc combo lo ≤ 0 →
        cand_dps tc combo lo < 0 ∧ 0 < cand_hp_total tc combo lo :=
      fun c hc combo hcombo lo hlo =>
        hz combo (List.mem_flatten.mpr ⟨c, hc, hcombo⟩) lo hlo
    have hall : ∀ r ∈ rs, RFin r ∨ RSurv r := by
      intro r hr
      obtain ⟨c, hc, hok⟩ := forall2_mem_right hf2 r hr
      exact (test_case_inv tc c r (hzc c hc) hok).1
    have hexr : ∃ r ∈ rs, RSurv r := by
      obtain ⟨c, hc, hlo⟩ := hex
      obtain ⟨p, hp, hcp⟩ := List.mem_flatten.mp hc
      obtain ⟨r, hr, hok⟩ := forall2_mem_left hf2 p hp
      exact ⟨r, hr, (test_case_inv tc p r (hzc p hp) hok).2 ⟨c, hcp, hlo⟩⟩
    have := foldResults_surv rs {} hall
      (Or.inl (by constructor <;> norm_num)) (Or.inr hexr)
    rw [h] at this
    exact this

/-- Witness for the amended C3 on a concrete run: both candidates of `tcC5`
survive forever with positive hitpoint pools, and the single-chunk search
returns a survives-forever result. -/
theorem claim_C3_witness :
    (⟨some { loB5 with boosters := some [] }, -200, -1, 200⟩ :
        TestResult).survival_time < 0 ∧
      (⟨some { loB5 with boosters := some [] }, -200, -1, 200⟩ :
        TestResult).incoming_dps < 0 :=
  claim_C3_amended tcC5 [[[]]] _ (by decide) (by decide) (by decide)

lemma cwrFrom_succ_ge {n k i : ℕ} (h : n ≤ i) : cwrFrom n (k + 1) i = [] := by
  rw [cwrFrom, Nat.sub_eq_zero_of_le h]
  simp

lemma cwrFrom_succ_lt {n k i : ℕ} (h : i < n) :
    cwrFrom n (k + 1) i = ((cwrFrom n k i).map (i :: ·)) ++ cwrFrom n (k + 1) (i + 1) := by
  have hd : n - i = (n - (i + 1)) + 1 := by omega
  conv_lhs => rw [cwrFrom, hd, List.range'_succ]
  rw [List.flatMap_cons]
  rw [cwrFrom]

lemma length_cwrFrom (n k : ℕ) : ∀ i, (cwrFrom n k i).length = Nat.multichoose (n - i) k := by
  induction k with
  | zero => intro i; simp [cwrFrom]
  | succ k ih =>
    suffices H : ∀ d i, n - i = d →
        (cwrFrom n (k + 1) i).length = Nat.multichoose (n - i) (k + 1) by
      intro i; exact H (n - i) i rfl
    intro d
    induction d with
    | zero =>
      intro i hi
      rw [cwrFrom_succ_ge (by omega)]
      simp [hi]
    | succ d ihd =>
      intro i hi
      have hlt : i < n := by omega
      have hi' : n - (i + 1) = d := by omega
      rw [cwrFrom_succ_lt hlt]
      simp only [List.length_append, List.length_map, ih, ihd (i + 1) hi']
      rw [hi, hi', Nat.multichoose_succ_succ]
      omega

lemma mem_cwrFrom (n : ℕ) : ∀ k i l, l ∈ cwrFrom n k i →
    l.length = k ∧ l.Chain' (· ≤ ·) ∧ ∀ x ∈ l, i ≤ x ∧ x < n := by
  intro k
  induction k with
  | zero =>
    intro i l hl
    simp [cwrFrom] at hl
    subst hl
    simp
  | succ k ih =>
    intro i l hl
    rw [cwrFrom] at hl
    simp only [List.mem_flatMap, List.mem_map] at hl
    obtain ⟨j, hj, t, ht, rfl⟩ := hl
    obtain ⟨h1, h2⟩ := List.mem_range'_1.mp hj
    obtain ⟨hlen, hchain, hbound⟩ := ih j t ht
    refine ⟨by simp [hlen], ?_, ?_⟩
    · rw [List.chain'_cons']
      exact ⟨fun y hy => (hbound y (List.mem_of_mem_head? hy)).1, hchain⟩
    · intro x hx
      rcases List.mem_cons.mp hx with rfl | hx
      · exact ⟨h1, by omega⟩
      · obtain ⟨ha, hb⟩ := hbound x hx
        exact ⟨by omega, hb⟩

/-- Claim C7: for all `n ≥ 1` and `k ≥ 0`, the booster-combination
enumeration used by `ShieldTester.compute`
(`itertools.combinations_with_replacement(range(0, n), k)`) yields exactly
`C(n+k-1, k)` index tuples, each of length `k`, each non-decreasing, with
every entry in `[0, n)` — in the deterministic lexicographic order fixed by
the pure function `cwrFrom`. -/
theorem claim_C7 (n k : ℕ) (_hn : 1 ≤ n) :
    (cwrFrom n k 0).length = (n + k - 1).choose k ∧
      ∀ l ∈ cwrFrom n k 0, l.length = k ∧ l.Chain' (· ≤ ·) ∧ ∀ x ∈ l, x < n := by
  constructor
  · rw [length_cwrFrom, Nat.sub_zero, Nat.multichoose_eq]
  · intro l hl
    obtain ⟨h1, h2, h3⟩ := mem_cwrFrom n k 0 l hl
    exact ⟨h1, h2, fun x hx => (h3 x hx).2⟩

/-- Witness for C7 at `n = 3`, `k = 2` (the `C(4, 2) = 6` tuples over three
variants). -/
theorem claim_C7_witness :
    1 ≤ 3 ∧
      ((cwrFrom 3 2 0).length = (3 + 2 - 1).choose 2 ∧
        ∀ l ∈ cwrFrom 3 2 0, l.length = 2 ∧ l.Chain' (· ≤ ·) ∧ ∀ x ∈ l, x < 3) :=
  ⟨by norm_num, claim_C7 3 2 (by norm_num)⟩

lemma bonuses_foldl (l : List ShieldBoosterVariant) (a b c d : ℚ) :
    l.foldl
      (fun (acc : ℚ × ℚ × ℚ × ℚ) (booster : ShieldBoosterVariant) =>
        (acc.1 * booster.exp_res_bonus, acc.2.1 * booster.kin_res_bonus,
         acc.2.2.1 * booster.therm_res_bonus, acc.2.2.2 + booster.shield_strength_bonus))
      (a, b, c, d) =
      (a * (l.map (·.exp_res_bonus)).prod, b * (l.map (·.kin_res_bonus)).prod,
       c * (l.map (·.therm_res_bonus)).prod, d + (l.map (·.shield_strength_bonus)).sum) := by
  induction l generalizing a b c d with
  | nil => simp
  | cons x xs ih => simp [ih, mul_assoc, add_assoc]

/-- Claim C8: `ShieldBoosterVariant.calculate_booster_bonuses` is
order-independent — for every list of booster variants and every permutation
of it, the returned `(exp_modifier, kin_modifier, therm_modifier,
hitpoint_bonus)` tuple (diminishing-returns remap included) is the same. -/
theorem claim_C8 (l₁ l₂ : List ShieldBoosterVariant) (h : l₁.Perm l₂) :
    ShieldBoosterVariant.calculate_booster_bonuses l₁ =
      ShieldBoosterVariant.calculate_booster_bonuses l₂ := by
  unfold ShieldBoosterVariant.calculate_booster_bonuses
  simp only [bonuses_foldl]
  rw [(h.map (·.exp_res_bonus)).prod_eq, (h.map (·.kin_res_bonus)).prod_eq,
    (h.map (·.therm_res_bonus)).prod_eq, (h.map (·.shield_strength_bonus)).sum_eq]

/-- Witness for C8 on a concrete two-element list and its transposition
(the kinetic product 0.6 falls below 0.7, so the remap fires). -/
theorem claim_C8_witness :
    ShieldBoosterVariant.calculate_booster_bonuses
        [⟨1/5, 1, 3/4, 1, false⟩, ⟨1/10, 9/10, 4/5, 19/20, false⟩] =
      ShieldBoosterVariant.calculate_booster_bonuses
        [⟨1/10, 9/10, 4/5, 19/20, false⟩, ⟨1/5, 1, 3/4, 1, false⟩] :=
  claim_C8 _ _ (List.Perm.swap _ _ _)

/-- Claim C10: `LoadOut.get_total_values` never returns `None` — for every
loadout whose `boosters` attribute is `None` or the empty list it returns
`calculate_total_values(1, 1, 1, 1)`, i.e. the unboosted values
`((1 - explres), (1 - kinres), (1 - thermres), shield_strength)` — contrary
to the docstring's "Returns None if boosters are not set". -/
theorem claim_C10 (l : LoadOut) :
    (l.get_total_values).isSome = true ∧
      ((l.boosters = none ∨ l.boosters = some []) →
        l.get_total_values =
          some (1 - l.shield_generator.explres, 1 - l.shield_generator.kinres,
                1 - l.shield_generator.thermres, l.shield_strength)) := by
  constructor
  · cases hb : l.boosters with
    | none => simp [LoadOut.get_total_values, hb]
    | some bs =>
      simp only [LoadOut.get_total_values, hb]
      split <;> simp
  · rintro (h | h) <;>
      simp [LoadOut.get_total_values, h, LoadOut.calculate_total_values]

/-- Claim C2 (refuted — code bug): the claim says evaluation is total when
`actual_dps` is exactly `0`, but line 98 of TestCase.py divides by
`actual_dps` unconditionally before the `elif actual_dps <= 0` branch can
classify the candidate, so a candidate with net DPS exactly zero (here:
damage effectiveness 0 and regen 0) raises `ZeroDivisionError`. -/
theorem claim_C2_bug : TestCase.test_case tcC2 [[]] = .error .zeroDivision := by
  decide

/-- Claim C3 counterexample: in the chunk-local comparison a candidate with
`net_dps ≤ 0` does NOT always outrank candidates with `net_dps > 0`, and the
running best DOES change from a survives-forever result back to a
finite-survival one.  `loSurv0` (net DPS `-1`, hitpoint pool `0`) is recorded
with `best_survival_time = 0/(-1) = 0 ≥ 0`, after which the dying candidate
`loFin100` (net DPS `1`) replaces it: the chunk best is the finite candidate
(survival 100). -/
theorem claim_C3_counterexample :
    cand_dps tcC3 [] loSurv0 ≤ 0 ∧ 0 < cand_dps tcC3 [] loFin100 ∧
      TestCase.test_case tcC3 [[]] =
        .ok ⟨some { loFin100 with boosters := some [] }, 100, -1, 100⟩ := by
  refine ⟨by decide, by decide, by decide⟩

/-- Claim C1 counterexample: chunking is NOT invariant.  On `tcC1` the full
sequence `[[0], [1], [2], [3]]` evaluated as the single chunk produced by the
source's `chunks(combinations, MP_CHUNK_SIZE)` yields the `vZ` build, while
the same sequence split into consecutive chunks of size 2 yields the `vB`
build: inside one chunk `vY` displaces `vB` through the `isclose` hitpoint
tie-break and `vZ` then displaces `vY` on strictly lower net DPS, but across
chunks `vZ` cannot displace `vB` (net DPS within tolerance, hitpoints equal),
so the fold of chunk-local bests differs from the single-chunk sweep. -/
theorem claim_C1_counterexample :
    (ShieldTester.chunks 2 (ShieldTester.booster_combinations tcC1)).flatten =
        ShieldTester.booster_combinations tcC1 ∧
      ShieldTester.computeCore tcC1
          (ShieldTester.chunks 2 (ShieldTester.booster_combinations tcC1)) ≠
        ShieldTester.computeCore tcC1
          (ShieldTester.chunks ShieldTester.MP_CHUNK_SIZE
            (ShieldTester.booster_combinations tcC1)) := by
  refine ⟨by decide, by decide⟩

/-- Claim C5 counterexample: the pre-filter does NOT break net-DPS ties by
higher hitpoints.  `loA5` and `loB5` have identical negative net DPS `-1` and
hitpoints 100 and 200; with `prelim = 1` the code keeps `loA5` (stable sort by
DPS only preserves original order on ties), not the higher-hitpoint `loB5`. -/
theorem claim_C5_counterexample :
    pl_dps tcC5 1 1 1 loA5 = pl_dps tcC5 1 1 1 loB5 ∧
      pl_dps tcC5 1 1 1 loA5 < 0 ∧
      loA5.shield_strength < loB5.shield_strength ∧
      ShieldTester.prefilterSelect tcC5 1 = .ok [loA5] := by
  refine ⟨by decide, by decide, by decide, by decide⟩

/-- Claim C6 counterexample: `load_data` performs no validation of the
mass-curve parameters — a module with `maxmass == minmass` is accepted at
load time and its engineered variants (masses untouched by engineering) are
produced normally instead of being rejected. -/
theorem claim_C6_counterexample :
    ∃ g ∈ ShieldTester.load_data_generators [sgBadMin] [bpX] [exX],
      g.maxmass = g.minmass := by
  decide

/-- Claim C6 amended: no validation happens at load time; instead the zero
denominator (`maxmass == minmass`) raises `ZeroDivisionError` and the zero
`math.log` argument (`maxmass == optmass`) raises `ValueError`, in both cases
when the `LoadOut` is constructed (shield-strength precomputation in
`LoadOut.__init__`) — before any search evaluation, and never as silent
NaN/Inf.  The statement holds for every instantiation of the abstract
`math.log` / `math.pow` values, since the error fires before they are used. -/
theorem claim_C6_amended (mlog : ℚ → ℚ) (mpow : ℚ → ℚ → ℚ) :
    LoadOut.mkLoadOut mlog mpow sgBadMin shipC6 = .error .zeroDivision ∧
      LoadOut.mkLoadOut mlog mpow sgBadOpt shipC6 = .error .valueError := by
  constructor
  · norm_num [LoadOut.mkLoadOut, LoadOut.calculate_shield_strength, qdiv, pyLog,
      sgBadMin, shipC6, except_bind_ok, except_bind_error, min_def]
  · norm_num [LoadOut.mkLoadOut, LoadOut.calculate_shield_strength, qdiv, pyLog,
      sgBadOpt, shipC6, except_bind_ok, except_bind_error, min_def]

/-- Witness for C6 at a concrete instantiation of the abstract log and pow. -/
theorem claim_C6_witness :
    LoadOut.mkLoadOut (fun _ => 0) (fun _ _ => 0) sgBadMin shipC6 = .error .zeroDivision ∧
      LoadOut.mkLoadOut (fun _ => 0) (fun _ _ => 0) sgBadOpt shipC6 = .error .valueError :=
  claim_C6_amended (fun _ => 0) (fun _ _ => 0)

lemma stMerge_assoc (a b c : TCState) :
    stMerge (stMerge a b) c = stMerge a (stMerge b c) := by
  unfold stMerge
  split_ifs <;> first | rfl | (exfalso; linarith)

lemma foldl_stMerge_assoc :
    ∀ (l : List TCState) (a b : TCState),
      l.foldl stMerge (stMerge a b) = stMerge a (l.foldl stMerge b) := by
  intro l
  induction l with
  | nil => intro a b; rfl
  | cons c l ih =>
    intro a b
    rw [List.foldl_cons, List.foldl_cons, stMerge_assoc, ih]

lemma stMerge_cases (a b : TCState) : stMerge a b = a ∨ stMerge a b = b := by
  unfold stMerge
  split_ifs <;> simp

lemma stMerge_surv_ge (a b : TCState) :
    a.best_survival_time ≤ (stMerge a b).best_survival_time := by
  unfold stMerge
  split_ifs with h
  · linarith
  · exact le_refl _

lemma foldl_stMerge_mem :
    ∀ (l : List TCState) (acc : TCState),
      l.foldl stMerge acc = acc ∨ l.foldl stMerge acc ∈ l := by
  intro l
  induction l with
  | nil => intro acc; exact Or.inl rfl
  | cons c l ih =>
    intro acc
    rw [List.foldl_cons]
    rcases ih (stMerge acc c) with h | h
    · rcases stMerge_cases acc c with hm | hm
      · exact Or.inl (h.trans hm)
      · refine Or.inr ?_
        rw [h, hm]
        exact List.mem_cons_self c l
    · exact Or.inr (List.mem_cons_of_mem c h)

lemma foldl_stMerge_surv_ge :
    ∀ (l : List TCState) (acc : TCState),
      acc.best_survival_time ≤ (l.foldl stMerge acc).best_survival_time := by
  intro l
  induction l with
  | nil => intro acc; exact le_refl _
  | cons c l ih =>
    intro acc
    rw [List.foldl_cons]
    exact le_trans (stMerge_surv_ge acc c) (ih (stMerge acc c))

lemma plStep_eq_stMerge (tc : TestCase) (bs : List ShieldBoosterVariant)
    (em km tm hb : ℚ) (st : TCState) (lo : LoadOut)
    (hdps : 0 < pl_dps tc em km tm lo) (hst : NoSurvSt st) :
    plStep tc bs em km tm hb st lo = stMerge st (candSt tc bs em km tm hb lo) := by
  simp only [plStep, stMerge, candSt]
  rw [if_pos ⟨hdps, hst.2⟩]
  split_ifs with h
  · rw [hst.1]
  · rfl

lemma NoSurv_stMerge (st c : TCState) (hst : NoSurvSt st)
    (hc : c.lowest_dps = 10000) : NoSurvSt (stMerge st c) := by
  unfold stMerge
  split_ifs with h
  · exact ⟨hc, by have := hst.2; linarith⟩
  · exact hst

lemma foldLoadouts_fin (tc : TestCase) (bs : List ShieldBoosterVariant)
    (em km tm hb : ℚ) :
    ∀ (los : List LoadOut) (st : TCState),
      (∀ lo ∈ los, 0 < pl_dps tc em km tm lo) → NoSurvSt st →
      los.foldlM (TestCase.processLoadout tc bs em km tm hb) st =
          .ok (los.foldl (fun s lo => stMerge s (candSt tc bs em km tm hb lo)) st) ∧
        NoSurvSt (los.foldl (fun s lo => stMerge s (candSt tc bs em km tm hb lo)) st) := by
  intro los
  induction los with
  | nil =>
    intro st _ hst
    exact ⟨by rw [List.foldlM_nil, List.foldl_nil, except_pure], hst⟩
  | cons lo los ih =>
    intro st hz hst
    have hd := hz lo (List.mem_cons_self lo los)
    have hNS : NoSurvSt (stMerge st (candSt tc bs em km tm hb lo)) :=
      NoSurv_stMerge st _ hst rfl
    obtain ⟨ih1, ih2⟩ := ih (stMerge st (candSt tc bs em km tm hb lo))
      (fun lo' hm => hz lo' (List.mem_cons_of_mem lo hm)) hNS
    constructor
    · rw [List.foldlM_cons, processLoadout_eq, if_neg (ne_of_gt hd), except_bind_ok,
        plStep_eq_stMerge tc bs em km tm hb st lo hd hst, List.foldl_cons, ih1]
    · rw [List.foldl_cons]
      exact ih2

lemma mapM_pyIndex_ok (vs : List ShieldBoosterVariant) :
    ∀ (c : List ℕ), (∀ x ∈ c, x < vs.length) →
      c.mapM (pyIndex vs) = .ok (c.filterMap (fun x => vs[x]?)) := by
  intro c
  induction c with
  | nil => intro _; rfl
  | cons x xs ih =>
    intro h
    have hx : x < vs.length := h x (List.mem_cons_self x xs)
    obtain ⟨a, ha⟩ : ∃ a, vs[x]? = some a := ⟨vs[x], List.getElem?_eq_getElem hx⟩
    rw [List.mapM_cons, show pyIndex vs x = .ok a by simp [pyIndex, ha], except_bind_ok,
      ih (fun y hy => h y (List.mem_cons_of_mem x hy)), except_bind_ok, except_pure]
    simp [List.filterMap_cons, ha]

lemma cand_dps_pl (tc : TestCase) (c : List ℕ) (lo : LoadOut) :
    pl_dps tc (ShieldBoosterVariant.calculate_booster_bonuses (boostersOf tc c)).1
      (ShieldBoosterVariant.calculate_booster_bonuses (boostersOf tc c)).2.1
      (ShieldBoosterVariant.calculate_booster_bonuses (boostersOf tc c)).2.2.1 lo =
      cand_dps tc c lo := rfl

lemma cand_hp_pl (tc : TestCase) (c : List ℕ) (lo : LoadOut) :
    pl_hp (ShieldBoosterVariant.calculate_booster_bonuses (boostersOf tc c)).2.2.2 lo =
      cand_hp tc c lo := rfl

lemma processCombination_fin (tc : TestCase) (st : TCState) (c : List ℕ)
    (hval : ∀ x ∈ c, x < tc.shield_booster_variants.length)
    (hdps : ∀ lo ∈ tc.loadout_list, 0 < cand_dps tc c lo)
    (hst : NoSurvSt st) :
    TestCase.processCombination tc st c = .ok ((candSts tc c).foldl stMerge st) ∧
      NoSurvSt ((candSts tc c).foldl stMerge st) := by
  unfold TestCase.processCombination
  rw [mapM_pyIndex_ok tc.shield_booster_variants c hval, except_bind_ok]
  obtain ⟨h1, h2⟩ := foldLoadouts_fin tc (boostersOf tc c)
    (ShieldBoosterVariant.calculate_booster_bonuses (boostersOf tc c)).1
    (ShieldBoosterVariant.calculate_booster_bonuses (boostersOf tc c)).2.1
    (ShieldBoosterVariant.calculate_booster_bonuses (boostersOf tc c)).2.2.1
    (ShieldBoosterVariant.calculate_booster_bonuses (boostersOf tc c)).2.2.2
    tc.loadout_list st
    (fun lo hm => by rw [cand_dps_pl]; exact hdps lo hm) hst
  rw [show (candSts tc c).foldl stMerge st =
      tc.loadout_list.foldl (fun s lo => stMerge s
        (candSt tc (boostersOf tc c)
          (ShieldBoosterVariant.calculate_booster_bonuses (boostersOf tc c)).1
          (ShieldBoosterVariant.calculate_booster_bonuses (boostersOf tc c)).2.1
          (ShieldBoosterVariant.calculate_booster_bonuses (boostersOf tc c)).2.2.1
          (ShieldBoosterVariant.calculate_booster_bonuses (boostersOf tc c)).2.2.2 lo)) st
    from by rw [candSts, List.foldl_map]]
  exact ⟨h1, h2⟩

lemma chunkStates_cons (tc : TestCase) (c : List ℕ) (combos : List (List ℕ)) :
    chunkStates tc (c :: combos) = candSts tc c ++ chunkStates tc combos := by
  simp [chunkStates]

lemma chunkStates_append (tc : TestCase) (a b : List (List ℕ)) :
    chunkStates tc (a ++ b) = chunkStates tc a ++ chunkStates tc b := by
  simp [chunkStates]

lemma foldCombos_fin (tc : TestCase) :
    ∀ (combos : List (List ℕ)) (st : TCState),
      (∀ c ∈ combos, ∀ x ∈ c, x < tc.shield_booster_variants.length) →
      (∀ c ∈ combos, ∀ lo ∈ tc.loadout_list, 0 < cand_dps tc c lo) →
      NoSurvSt st →
      combos.foldlM (TestCase.processCombination tc) st =
          .ok ((chunkStates tc combos).foldl stMerge st) ∧
        NoSurvSt ((chunkStates tc combos).foldl stMerge st) := by
  intro combos
  induction combos with
  | nil =>
    intro st _ _ hst
    exact ⟨by rw [List.foldlM_nil, except_pure]; rfl, hst⟩
  | cons c combos ih =>
    intro st hval hdps hst
    obtain ⟨h1, h2⟩ := processCombination_fin tc st c
      (hval c (List.mem_cons_self c combos)) (hdps c (List.mem_cons_self c combos)) hst
    obtain ⟨ih1, ih2⟩ := ih ((candSts tc c).foldl stMerge st)
      (fun c' hm => hval c' (List.mem_cons_of_mem c hm))
      (fun c' hm => hdps c' (List.mem_cons_of_mem c hm)) h2
    rw [chunkStates_cons, List.foldl_append]
    exact ⟨by rw [List.foldlM_cons, h1, except_bind_ok, ih1], ih2⟩

lemma chunkStates_props (tc : TestCase) (combos : List (List ℕ))
    (hdps : ∀ c ∈ combos, ∀ lo ∈ tc.loadout_list,
      0 < cand_dps tc c lo ∧ 0 < cand_hp_total tc c lo) :
    ∀ s ∈ chunkStates tc combos,
      0 < s.best_survival_time ∧ s.best_loadout.isSome = true := by
  intro s hs
  simp only [chunkStates, List.mem_flatMap] at hs
  obtain ⟨c, hc, hs⟩ := hs
  simp only [candSts, List.mem_map] at hs
  obtain ⟨lo, hlo, rfl⟩ := hs
  obtain ⟨hd, hh⟩ := hdps c hc lo hlo
  refine ⟨?_, rfl⟩
  show 0 < pl_survival tc _ _ _ _ lo
  unfold pl_survival
  rw [cand_hp_pl]
  rw [cand_dps_pl]
  exact div_pos hh hd

lemma stMerge_init (c : TCState) (hc : 0 < c.best_survival_time) :
    stMerge tcInit c = c := by
  unfold stMerge tcInit
  rw [if_pos]
  show (0 : ℚ) < c.best_survival_time
  exact hc

lemma fold_stMerge_init_props (l : List TCState)
    (hl : ∀ s ∈ l, 0 < s.best_survival_time ∧ s.best_loadout.isSome = true)
    (hne : l ≠ []) :
    0 < (l.foldl stMerge tcInit).best_survival_time ∧
      (l.foldl stMerge tcInit).best_loadout.isSome = true := by
  obtain ⟨c0, rest, rfl⟩ := List.exists_cons_of_ne_nil hne
  rw [List.foldl_cons, stMerge_init c0 (hl c0 (List.mem_cons_self c0 rest)).1]
  constructor
  · exact lt_of_lt_of_le (hl c0 (List.mem_cons_self c0 rest)).1
      (foldl_stMerge_surv_ge rest c0)
  · rcases foldl_stMerge_mem rest c0 with h | h
    · rw [h]
      exact (hl c0 (List.mem_cons_self c0 rest)).2
    · exact (hl _ (List.mem_cons_of_mem c0 h)).2

lemma fold_stMerge_init_absorb (l : List TCState) (c0 : TCState)
    (h0 : 0 < c0.best_survival_time) :
    (c0 :: l).foldl stMerge tcInit = l.foldl stMerge c0 := by
  rw [List.foldl_cons, stMerge_init c0 h0]

lemma test_case_fin (tc : TestCase) (combos : List (List ℕ))
    (hval : ∀ c ∈ combos, ∀ x ∈ c, x < tc.shield_booster_variants.length)
    (hdps : ∀ c ∈ combos, ∀ lo ∈ tc.loadout_list,
      0 < cand_dps tc c lo ∧ 0 < cand_hp_total tc c lo)
    (hc : combos ≠ []) (hlo : tc.loadout_list ≠ []) :
    TestCase.test_case tc combos =
        .ok (stResult ((chunkStates tc combos).foldl stMerge tcInit)) ∧
      0 < ((chunkStates tc combos).foldl stMerge tcInit).best_survival_time := by
  have hcs : chunkStates tc combos ≠ [] := by
    obtain ⟨c0, rest, rfl⟩ := List.exists_cons_of_ne_nil hc
    rw [chunkStates_cons]
    intro h
    rcases List.append_eq_nil.mp h with ⟨h1, -⟩
    have : tc.loadout_list = [] := by
      have := congrArg List.length h1
      simpa [candSts] using this
    exact hlo this
  obtain ⟨hpos, hsome⟩ := fold_stMerge_init_props (chunkStates tc combos)
    (chunkStates_props tc combos hdps) hcs
  obtain ⟨h1, -⟩ := foldCombos_fin tc combos tcInit hval
    (fun c hm lo hl => (hdps c hm lo hl).1)
    ⟨rfl, le_refl 0⟩
  refine ⟨?_, hpos⟩
  unfold TestCase.test_case
  rw [h1, except_bind_ok]
  obtain ⟨lo, hl⟩ := Option.isSome_iff_exists.mp hsome
  rw [hl]
  simp [stResult, hl, except_pure]

lemma apply_async_stResult (s1 s2 : TCState)
    (h1 : 0 ≤ s1.best_survival_time) (h2 : 0 ≤ s2.best_survival_time) :
    ShieldTester.apply_async_callback (stResult s1) (stResult s2) =
      stResult (stMerge s1 s2) := by
  unfold ShieldTester.apply_async_callback stMerge stResult
  dsimp only
  rw [if_neg (not_lt.mpr h1), if_neg (not_lt.mpr h2)]
  split_ifs <;> rfl

lemma apply_async_init_stResult (s : TCState) (hs : 0 < s.best_survival_time) :
    ShieldTester.apply_async_callback {} (stResult s) = stResult s := by
  unfold ShieldTester.apply_async_callback stResult
  dsimp only
  rw [if_neg (by norm_num), if_neg (not_lt.mpr (le_of_lt hs)), if_pos hs]

lemma mapM_ok_of_forall {α β : Type} {f : α → Except PyErr β} {g : α → β} :
    ∀ {l : List α}, (∀ x ∈ l, f x = .ok (g x)) → l.mapM f = .ok (l.map g) := by
  intro l
  induction l with
  | nil => intro _; rfl
  | cons x xs ih =>
    intro h
    rw [List.mapM_cons, h x (List.mem_cons_self x xs), except_bind_ok,
      ih (fun y hy => h y (List.mem_cons_of_mem x hy)), except_bind_ok, except_pure,
      List.map_cons]

lemma stMerge_S_append (tc : TestCase) (a b : List (List ℕ))
    (hBne : chunkStates tc b ≠ [])
    (hB0 : ∀ s ∈ chunkStates tc b, 0 < s.best_survival_time) :
    stMerge ((chunkStates tc a).foldl stMerge tcInit)
        ((chunkStates tc b).foldl stMerge tcInit) =
      (chunkStates tc (a ++ b)).foldl stMerge tcInit := by
  obtain ⟨b0, rest, hB⟩ := List.exists_cons_of_ne_nil hBne
  rw [chunkStates_append, List.foldl_append, hB,
    fold_stMerge_init_absorb rest b0 (hB0 b0 (by rw [hB]; exact List.mem_cons_self b0 rest)),
    List.foldl_cons, foldl_stMerge_assoc]

lemma fold_parts_eq (tc : TestCase) :
    ∀ (parts : List (List (List ℕ))) (accFlat : List (List ℕ)),
      (∀ c ∈ accFlat ++ parts.flatten, ∀ x ∈ c,
        x < tc.shield_booster_variants.length) →
      (∀ c ∈ accFlat ++ parts.flatten, ∀ lo ∈ tc.loadout_list,
        0 < cand_dps tc c lo ∧ 0 < cand_hp_total tc c lo) →
      tc.loadout_list ≠ [] → (∀ p ∈ parts, p ≠ []) →
      (parts.map (fun p => stResult ((chunkStates tc p).foldl stMerge tcInit))).foldl
          ShieldTester.apply_async_callback
          (stResult ((chunkStates tc accFlat).foldl stMerge tcInit)) =
        stResult ((chunkStates tc (accFlat ++ parts.flatten)).foldl stMerge tcInit) := by
  intro parts
  induction parts with
  | nil =>
    intro accFlat _ _ _ _
    rw [List.map_nil, List.foldl_nil, List.flatten_nil, List.append_nil]
  | cons p parts ih =>
    intro accFlat hval hdps hlo hne
    have hflat : (p :: parts).flatten = p ++ parts.flatten := List.flatten_cons
    have hpne : p ≠ [] := hne p (List.mem_cons_self p parts)
    have hpdps : ∀ c ∈ p, ∀ lo ∈ tc.loadout_list,
        0 < cand_dps tc c lo ∧ 0 < cand_hp_total tc c lo := by
      intro c hm lo hl
      have hcm : c ∈ accFlat ++ (p :: parts).flatten := by
        rw [hflat]
        exact List.mem_append.mpr (Or.inr (List.mem_append.mpr (Or.inl hm)))
      exact hdps c hcm lo hl
    have hpcs : chunkStates tc p ≠ [] := by
      obtain ⟨c0, rest, rfl⟩ := List.exists_cons_of_ne_nil hpne
      rw [chunkStates_cons]
      intro h
      rcases List.append_eq_nil.mp h with ⟨h1, -⟩
      have hlen := congrArg List.length h1
      simp [candSts] at hlen
      exact hlo hlen
    have hp0 : ∀ s ∈ chunkStates tc p, 0 < s.best_survival_time :=
      fun s hs => (chunkStates_props tc p hpdps s hs).1
    have haccS : 0 ≤ ((chunkStates tc accFlat).foldl stMerge tcInit).best_survival_time :=
      le_trans (by norm_num [tcInit]) (foldl_stMerge_surv_ge (chunkStates tc accFlat) tcInit)
    have hpS : 0 ≤ ((chunkStates tc p).foldl stMerge tcInit).best_survival_time :=
      le_trans (by norm_num [tcInit]) (foldl_stMerge_surv_ge (chunkStates tc p) tcInit)
    rw [List.map_cons, List.foldl_cons, apply_async_stResult _ _ haccS hpS,
      stMerge_S_append tc accFlat p hpcs hp0,
      ih (accFlat ++ p)
        (fun c hm => hval c (by rw [hflat, ← List.append_assoc]; exact hm))
        (fun c hm => hdps c (by rw [hflat, ← List.append_assoc]; exact hm))
        hlo (fun q hq => hne q (List.mem_cons_of_mem p hq)),
      hflat, ← List.append_assoc]

/-- Claim C1 amended: chunking invariance holds for the finite-survival
regime — if every candidate (booster combination × loadout) has strictly
positive net DPS and a strictly positive total hitpoint pool, then evaluating
the full booster-combination sequence split into consecutive nonempty chunks
of any sizes and folding the chunk-local bests in chunk order with
`apply_async_callback` produces exactly the single-chunk result.  (The
counterexample shows the claim fails as stated once survives-forever
candidates are involved, because the `isclose` tie-break is not associative
across chunk boundaries.) -/
theorem claim_C1_amended (tc : TestCase) (parts : List (List (List ℕ)))
    (hjoin : parts.flatten = ShieldTester.booster_combinations tc)
    (hne : ∀ p ∈ parts, p ≠ [])
    (hcombos : ShieldTester.booster_combinations tc ≠ [])
    (hlo : tc.loadout_list ≠ [])
    (hpos : ∀ c ∈ ShieldTester.booster_combinations tc, ∀ lo ∈ tc.loadout_list,
      0 < cand_dps tc c lo ∧ 0 < cand_hp_total tc c lo) :
    ShieldTester.computeCore tc parts =
      ShieldTester.computeCore tc [ShieldTester.booster_combinations tc] := by
  have hval : ∀ c ∈ ShieldTester.booster_combinations tc, ∀ x ∈ c,
      x < tc.shield_booster_variants.length := by
    intro c hc x hx
    exact ((mem_cwrFrom _ _ _ c hc).2.2 x hx).2
  obtain ⟨hR, hRpos⟩ := test_case_fin tc (ShieldTester.booster_combinations tc)
    hval hpos hcombos hlo
  have hchunk : ∀ p ∈ parts, TestCase.test_case tc p =
      .ok (stResult ((chunkStates tc p).foldl stMerge tcInit)) := by
    intro p hp
    have hsub : ∀ c ∈ p, c ∈ ShieldTester.booster_combinations tc := by
      intro c hc
      rw [← hjoin]
      exact List.mem_flatten.mpr ⟨p, hp, hc⟩
    exact (test_case_fin tc p (fun c hc => hval c (hsub c hc))
      (fun c hc => hpos c (hsub c hc)) (hne p hp) hlo).1
  have hpartsne : parts ≠ [] := by
    intro h
    rw [h] at hjoin
    exact hcombos hjoin.symm
  obtain ⟨p0, prest, rfl⟩ := List.exists_cons_of_ne_nil hpartsne
  have hp0 : p0 ∈ p0 :: prest := List.mem_cons_self p0 prest
  have hsub0 : ∀ c ∈ p0, c ∈ ShieldTester.booster_combinations tc := by
    intro c hc
    rw [← hjoin]
    exact List.mem_flatten.mpr ⟨p0, hp0, hc⟩
  have hp0pos := (test_case_fin tc p0 (fun c hc => hval c (hsub0 c hc))
    (fun c hc => hpos c (hsub0 c hc)) (hne p0 hp0) hlo).2
  have hfl : p0 ++ prest.flatten = ShieldTester.booster_combinations tc := by
    rw [← hjoin]
    exact List.flatten_cons.symm
  unfold ShieldTester.computeCore
  rw [mapM_ok_of_forall hchunk, except_bind_ok,
    show [ShieldTester.booster_combinations tc].mapM (TestCase.test_case tc) =
        .ok [stResult ((chunkStates tc
          (ShieldTester.booster_combinations tc)).foldl stMerge tcInit)] from by
      rw [List.mapM_cons, hR, except_bind_ok, List.mapM_nil, except_pure,
        except_bind_ok, except_pure],
    except_bind_ok]
  congr 1
  conv_rhs => rw [List.foldl_cons, List.foldl_nil, apply_async_init_stResult _ hRpos]
  conv_lhs => rw [List.map_cons, List.foldl_cons, apply_async_init_stResult _ hp0pos]
  rw [fold_parts_eq tc prest p0
    (fun c hm => hval c (by rw [← hfl]; exact hm))
    (fun c hm => hpos c (by rw [← hfl]; exact hm))
    hlo (fun q hq => hne q (List.mem_cons_of_mem p0 hq)), hfl]

/-- Witness for the amended C1: a concrete two-variant search in which every
candidate dies (net DPS 1 and 2), evaluated as two singleton chunks versus the
full sequence. -/
theorem claim_C1_witness :
    ShieldTester.computeCore
        { ship := shipX, damage_effectiveness := 1/2, kinetic_dps := 2,
          shield_booster_variants := [vD, ⟨0, 1, 4, 1, false⟩],
          loadout_list := [loX], number_of_boosters_to_test := 1 }
        [[[0]], [[1]]] =
      ShieldTester.computeCore
        { ship := shipX, damage_effectiveness := 1/2, kinetic_dps := 2,
          shield_booster_variants := [vD, ⟨0, 1, 4, 1, false⟩],
          loadout_list := [loX], number_of_boosters_to_test := 1 }
        [ShieldTester.booster_combinations
          { ship := shipX, damage_effectiveness := 1/2, kinetic_dps := 2,
            shield_booster_variants := [vD, ⟨0, 1, 4, 1, false⟩],
            loadout_list := [loX], number_of_boosters_to_test := 1 }] :=
  claim_C1_amended _ _ (by decide) (by decide) (by decide) (by decide) (by decide)

lemma pf_dps_eq (tc : TestCase) (lo : LoadOut) :
    tc.damage_effectiveness * (tc.explosive_dps * (1 - lo.shield_generator.explres) +
        tc.kinetic_dps * (1 - lo.shield_generator.kinres) +
        tc.thermal_dps * (1 - lo.shield_generator.thermres) + tc.absolute_dps) -
      lo.shield_generator.regen * (1 - tc.damage_effectiveness) = pl_dps tc 1 1 1 lo := by
  unfold pl_dps
  ring

lemma prefilterLoadout_eq_lists (tc : TestCase) (st : PrefilterState) (lo : LoadOut) :
    (pl_dps tc 1 1 1 lo = 0 ∧
      ShieldTester.prefilterLoadout tc st lo = .error .zeroDivision) ∨
    (∃ st', ShieldTester.prefilterLoadout tc st lo = .ok st' ∧
      st'.preliminary_list = st.preliminary_list ++
        (if 0 < pl_dps tc 1 1 1 lo then [(pl_survival tc 1 1 1 1 lo, lo)] else []) ∧
      st'.preliminary_list_survived = st.preliminary_list_survived ++
        (if pl_dps tc 1 1 1 lo < 0 then [(pl_dps tc 1 1 1 lo, lo)] else [])) := by
  unfold ShieldTester.prefilterLoadout qdiv
  dsimp only
  rw [pf_dps_eq tc lo]
  by_cases h : pl_dps tc 1 1 1 lo = 0
  · left
    rw [if_pos h, except_bind_error]
    exact ⟨h, rfl⟩
  · right
    rw [if_neg h]
    dsimp only [Bind.bind, Except.bind]
    rcases lt_trichotomy (pl_dps tc 1 1 1 lo) 0 with hneg | hzero | hpos
    · simp only [if_neg (show ¬ (0:ℚ) < pl_dps tc 1 1 1 lo by linarith), if_pos hneg,
        List.append_nil, gt_iff_lt]
      split_ifs with hc
      · exact ⟨_, rfl, by simp, by simp⟩
      · exact ⟨_, rfl, by simp, by simp⟩
    · exact absurd hzero h
    · simp only [if_pos hpos, if_neg (show ¬ pl_dps tc 1 1 1 lo < 0 by linarith),
        List.append_nil, gt_iff_lt]
      split_ifs with hc
      · exact ⟨_, rfl, by simp [pl_survival, pl_hp], by simp⟩
      · exact ⟨_, rfl, by simp [pl_survival, pl_hp], by simp⟩

lemma prefilter_fold (tc : TestCase) :
    ∀ (los : List LoadOut) (st : PrefilterState),
      (∀ lo ∈ los, pl_dps tc 1 1 1 lo ≠ 0) →
      ∃ st', los.foldlM (ShieldTester.prefilterLoadout tc) st = .ok st' ∧
        st'.preliminary_list = st.preliminary_list ++ los.filterMap (fun lo =>
          if 0 < pl_dps tc 1 1 1 lo then some (pl_survival tc 1 1 1 1 lo, lo) else none) ∧
        st'.preliminary_list_survived = st.preliminary_list_survived ++
          los.filterMap (fun lo =>
            if pl_dps tc 1 1 1 lo < 0 then some (pl_dps tc 1 1 1 lo, lo) else none) := by
  intro los
  induction los with
  | nil =>
    intro st _
    exact ⟨st, by rw [List.foldlM_nil, except_pure], by simp, by simp⟩
  | cons lo los ih =>
    intro st hz
    have hlo : pl_dps tc 1 1 1 lo ≠ 0 := hz lo (List.mem_cons_self lo los)
    rcases prefilterLoadout_eq_lists tc st lo with ⟨h0, -⟩ | ⟨st1, h1, hl1, hl2⟩
    · exact absurd h0 hlo
    · obtain ⟨st', hfold, hA, hB⟩ := ih st1 (fun l hm => hz l (List.mem_cons_of_mem lo hm))
      refine ⟨st', by rw [List.foldlM_cons, h1, except_bind_ok, hfold], ?_, ?_⟩
      · rw [hA, hl1, List.filterMap_cons, List.append_assoc]
        rcases lt_trichotomy (pl_dps tc 1 1 1 lo) 0 with hneg | hzero | hpos
        · simp [if_neg (by linarith : ¬ (0:ℚ) < pl_dps tc 1 1 1 lo)]
        · exact absurd hzero hlo
        · simp [if_pos hpos]
      · rw [hB, hl2, List.filterMap_cons, List.append_assoc]
        rcases lt_trichotomy (pl_dps tc 1 1 1 lo) 0 with hneg | hzero | hpos
        · simp [if_pos hneg]
        · exact absurd hzero hlo
        · simp [if_neg (by linarith : ¬ pl_dps tc 1 1 1 lo < 0)]

lemma prefilterSelect_ok (tc : TestCase) (prelim : ℕ)
    (hz : ∀ lo ∈ tc.loadout_list, pl_dps tc 1 1 1 lo ≠ 0) :
    ∃ res, ShieldTester.prefilterSelect tc prelim = .ok res := by
  obtain ⟨st', hfold, -, -⟩ := prefilter_fold tc tc.loadout_list ⟨[], [], 0, 10000⟩ hz
  unfold ShieldTester.prefilterSelect
  rw [hfold, except_bind_ok]
  split_ifs <;> exact ⟨_, rfl⟩

lemma prefilterSelect_eq (tc : TestCase) (prelim : ℕ)
    (hz : ∀ lo ∈ tc.loadout_list, pl_dps tc 1 1 1 lo ≠ 0) :
    ShieldTester.prefilterSelect tc prelim = .ok
      (if (prefilterSurvived tc).length > 0 then
        (((prefilterSurvived tc).insertionSort keyLe).take prelim).map (·.2)
      else (((prefilterFinite tc).insertionSort keyGe).take prelim).map (·.2)) := by
  obtain ⟨st', hfold, hA, hB⟩ := prefilter_fold tc tc.loadout_list ⟨[], [], 0, 10000⟩ hz
  unfold ShieldTester.prefilterSelect
  rw [hfold, except_bind_ok]
  have hA2 : st'.preliminary_list = prefilterFinite tc := by rw [hA]; rfl
  have hB2 : st'.preliminary_list_survived = prefilterSurvived tc := by rw [hB]; rfl
  rw [hA2, hB2]
  split_ifs with h <;> rfl

lemma survList_mem_facts (tc : TestCase) (e : ℚ × LoadOut)
    (h : e ∈ prefilterSurvived tc) :
    e.2 ∈ tc.loadout_list ∧ pl_dps tc 1 1 1 e.2 < 0 ∧ e.1 = pl_dps tc 1 1 1 e.2 := by
  unfold prefilterSurvived at h
  rw [List.mem_filterMap] at h
  obtain ⟨lo, hlo, he⟩ := h
  split_ifs at he with hc
  simp only [Option.some.injEq] at he
  subst he
  exact ⟨hlo, hc, rfl⟩

lemma finList_mem_facts (tc : TestCase) (e : ℚ × LoadOut)
    (h : e ∈ prefilterFinite tc) :
    e.2 ∈ tc.loadout_list ∧ 0 < pl_dps tc 1 1 1 e.2 ∧
      e.1 = pl_survival tc 1 1 1 1 e.2 := by
  unfold prefilterFinite at h
  rw [List.mem_filterMap] at h
  obtain ⟨lo, hlo, he⟩ := h
  split_ifs at he with hc
  simp only [Option.some.injEq] at he
  subst he
  exact ⟨hlo, hc, rfl⟩

lemma sort_take_facts (r : (ℚ × LoadOut) → (ℚ × LoadOut) → Prop) [DecidableRel r]
    [IsTotal (ℚ × LoadOut) r] [IsTrans (ℚ × LoadOut) r]
    (L : List (ℚ × LoadOut)) (p : ℕ) :
    ((L.insertionSort r).map (·.2) =
        ((L.insertionSort r).take p).map (·.2) ++
          ((L.insertionSort r).drop p).map (·.2)) ∧
      ((L.insertionSort r).take p).length = min p L.length ∧
      (∀ x ∈ (L.insertionSort r).take p, x ∈ L) ∧
      (∀ y ∈ (L.insertionSort r).drop p, y ∈ L) ∧
      ∀ x ∈ (L.insertionSort r).take p, ∀ y ∈ (L.insertionSort r).drop p, r x y := by
  refine ⟨?_, ?_, ?_, ?_, ?_⟩
  · rw [← List.map_append, List.take_append_drop]
  · rw [List.length_take, List.length_insertionSort]
  · intro x hx
    exact (List.perm_insertionSort r L).mem_iff.mp (List.mem_of_mem_take hx)
  · intro y hy
    exact (List.perm_insertionSort r L).mem_iff.mp (List.mem_of_mem_drop hy)
  · have hs := List.sorted_insertionSort r L
    rw [← List.take_append_drop p (L.insertionSort r)] at hs
    exact fun x hx y hy => (List.pairwise_append.mp hs).2.2 x hx y hy

/-- Claim C5 amended: for `prelim > 0` (different from the candidate count)
the pre-filter evaluates each loadout with unity booster modifiers and: if
any loadout has negative net DPS, it keeps the `prelim` loadouts of lowest
net DPS with ties kept in original list order (Python's stable sort by the
DPS key alone — NOT broken by higher hitpoints, as the counterexample
shows); otherwise it keeps the `prelim` loadouts of greatest finite survival
time (ties likewise in original order).  Every kept loadout comes from the
original list, the kept count is `min prelim (branch count)`, and every kept
loadout weakly dominates every dropped one on the branch key.  Zero net DPS
would raise `ZeroDivisionError`, hence the totality hypothesis. -/
theorem claim_C5_amended (tc : TestCase) (prelim : ℕ)
    (hz : ∀ lo ∈ tc.loadout_list, pl_dps tc 1 1 1 lo ≠ 0) (_hp : 0 < prelim) :
    ∃ res, ShieldTester.prefilterSelect tc prelim = .ok res ∧
      ((∃ lo ∈ tc.loadout_list, pl_dps tc 1 1 1 lo < 0) →
        res = (((prefilterSurvived tc).insertionSort keyLe).take prelim).map (·.2) ∧
        res.length = min prelim (prefilterSurvived tc).length ∧
        (∀ lo ∈ res, lo ∈ tc.loadout_list ∧ pl_dps tc 1 1 1 lo < 0) ∧
        ∃ rest, ((prefilterSurvived tc).insertionSort keyLe).map (·.2) = res ++ rest ∧
          ∀ x ∈ res, ∀ y ∈ rest, pl_dps tc 1 1 1 x ≤ pl_dps tc 1 1 1 y) ∧
      ((∀ lo ∈ tc.loadout_list, 0 < pl_dps tc 1 1 1 lo) →
        res = (((prefilterFinite tc).insertionSort keyGe).take prelim).map (·.2) ∧
        res.length = min prelim (prefilterFinite tc).length ∧
        (∀ lo ∈ res, lo ∈ tc.loadout_list ∧ 0 < pl_dps tc 1 1 1 lo) ∧
        ∃ rest, ((prefilterFinite tc).insertionSort keyGe).map (·.2) = res ++ rest ∧
          ∀ x ∈ res, ∀ y ∈ rest, pl_survival tc 1 1 1 1 y ≤ pl_survival tc 1 1 1 1 x) := by
  refine ⟨_, prefilterSelect_eq tc prelim hz, ?_, ?_⟩
  · intro hex
    have hlen : (prefilterSurvived tc).length > 0 := by
      obtain ⟨lo, hm, hneg⟩ := hex
      have hmm : (pl_dps tc 1 1 1 lo, lo) ∈ prefilterSurvived tc := by
        unfold prefilterSurvived
        exact List.mem_filterMap.mpr ⟨lo, hm, by rw [if_pos hneg]⟩
      exact List.length_pos_of_mem hmm
    rw [if_pos hlen]
    obtain ⟨hsplit, hlen2, hmemT, hmemD, hpair⟩ :=
      sort_take_facts keyLe (prefilterSurvived tc) prelim
    refine ⟨rfl, by rw [List.length_map, hlen2], ?_, ?_⟩
    · intro lo hlo
      obtain ⟨e, he, rfl⟩ := List.mem_map.mp hlo
      obtain ⟨h1, h2, -⟩ := survList_mem_facts tc e (hmemT e he)
      exact ⟨h1, h2⟩
    · refine ⟨(((prefilterSurvived tc).insertionSort keyLe).drop prelim).map (·.2),
        hsplit, ?_⟩
      intro x hx y hy
      obtain ⟨ex, hex2, rfl⟩ := List.mem_map.mp hx
      obtain ⟨ey, hey2, rfl⟩ := List.mem_map.mp hy
      have hkey : keyLe ex ey := hpair ex hex2 ey hey2
      rw [← (survList_mem_facts tc ex (hmemT ex hex2)).2.2,
        ← (survList_mem_facts tc ey (hmemD ey hey2)).2.2]
      exact hkey
  · intro hall
    have hnil : prefilterSurvived tc = [] := by
      unfold prefilterSurvived
      rw [List.filterMap_eq_nil_iff]
      intro lo hm
      rw [if_neg (by linarith [hall lo hm])]
    rw [if_neg (by rw [hnil]; simp)]
    obtain ⟨hsplit, hlen2, hmemT, hmemD, hpair⟩ :=
      sort_take_facts keyGe (prefilterFinite tc) prelim
    refine ⟨rfl, by rw [List.length_map, hlen2], ?_, ?_⟩
    · intro lo hlo
      obtain ⟨e, he, rfl⟩ := List.mem_map.mp hlo
      obtain ⟨h1, h2, -⟩ := finList_mem_facts tc e (hmemT e he)
      exact ⟨h1, h2⟩
    · refine ⟨(((prefilterFinite tc).insertionSort keyGe).drop prelim).map (·.2),
        hsplit, ?_⟩
      intro x hx y hy
      obtain ⟨ex, hex2, rfl⟩ := List.mem_map.mp hx
      obtain ⟨ey, hey2, rfl⟩ := List.mem_map.mp hy
      have hkey : keyGe ex ey := hpair ex hex2 ey hey2
      rw [← (finList_mem_facts tc ex (hmemT ex hex2)).2.2,
        ← (finList_mem_facts tc ey (hmemD ey hey2)).2.2]
      exact hkey

/-- Witness for the amended C5 at `tcC5` with `prelim = 1`: evaluation
succeeds and keeps exactly one of the two surviving loadouts. -/
theorem claim_C5_witness :
    ∃ res, ShieldTester.prefilterSelect tcC5 1 = .ok res ∧ res.length = 1 := by
  obtain ⟨res, h1, h2, -⟩ := claim_C5_amended tcC5 1 (by decide) (by decide)
  obtain ⟨-, hlen, -, -⟩ := h2 (by decide)
  refine ⟨res, h1, ?_⟩
  rw [hlen]
  decide

lemma computeLoop_cancel_now (tc : TestCase) (cancel : ℕ → Bool) (idx : ℕ)
    (best : TestResult) (events : List CEvent)
    (dispatched : List (List (List ℕ))) (l : List (List (List ℕ)))
    (hc : cancel idx = true) :
    ShieldTester.computeLoop tc cancel idx best events dispatched l =
      .ok ⟨none, events ++ [.cancelled], dispatched⟩ := by
  cases l <;> (unfold ShieldTester.computeLoop; rw [if_pos hc]; rfl)

lemma computeLoop_dispatched (tc : TestCase) (cancel : ℕ → Bool) :
    ∀ (l : List (List (List ℕ))) (idx : ℕ) (best : TestResult)
      (events : List CEvent) (dispatched : List (List (List ℕ)))
      (tr : ComputeTrace) (i : ℕ),
      ShieldTester.computeLoop tc cancel idx best events dispatched l = .ok tr →
      idx ≤ i → cancel i = true →
      tr.dispatched.length ≤ dispatched.length + (i - idx) := by
  intro l
  induction l with
  | nil =>
    intro idx best events dispatched tr i h hle hc
    unfold ShieldTester.computeLoop at h
    split_ifs at h <;>
      simp only [except_pure, Except.ok.injEq] at h <;> subst h <;> simp
  | cons chunk rest ih =>
    intro idx best events dispatched tr i h hle hc
    unfold ShieldTester.computeLoop at h
    by_cases hidx : cancel idx = true
    · rw [if_pos hidx] at h
      simp only [except_pure, Except.ok.injEq] at h
      subst h
      simp
    · rw [if_neg (by simpa using hidx)] at h
      cases hr : TestCase.test_case tc chunk with
      | error e => rw [hr, except_bind_error] at h; exact absurd h (by simp)
      | ok r =>
        rw [hr, except_bind_ok] at h
        have hne : idx ≠ i := by
          intro hE
          rw [hE] at hidx
          exact hidx hc
        have := ih (idx + 1) (ShieldTester.apply_async_callback best r)
          (events ++ [.step]) (dispatched ++ [chunk]) tr i h (by omega) hc
        simp only [List.length_append, List.length_cons, List.length_nil] at this
        omega

/-- Claim C4: if the cancellation flag is observed set at the very first
chunk boundary, `ShieldTester.compute` returns the distinguished cancelled
outcome — `None` after emitting `CALLBACK_CANCELLED` — with no partial result
and without ever invoking `TestCase.test_case` (no chunk dispatched); and once
the flag is observed set at the i-th chunk boundary, no further chunks are
dispatched (at most `i` chunks ever reach the evaluator).  The hypotheses
require a runnable search (nonempty variant and loadout lists) and, because
the pre-filter runs before the dispatch loop, that no loadout has exactly
zero unboosted net DPS (otherwise the pre-filter raises before the loop). -/
theorem claim_C4 (tc : TestCase) (cancel : ℕ → Bool) (prelim : ℤ)
    (hne1 : tc.shield_booster_variants ≠ []) (hne2 : tc.loadout_list ≠ [])
    (hpf : ∀ lo ∈ tc.loadout_list, pl_dps tc 1 1 1 lo ≠ 0) :
    (cancel 0 = true →
      ShieldTester.compute tc cancel prelim = .ok ⟨none, [.cancelled], []⟩) ∧
    (∀ i, cancel i = true → ∀ tr, ShieldTester.compute tc cancel prelim = .ok tr →
      tr.dispatched.length ≤ i) := by
  have hguard : ¬ (tc.shield_booster_variants.isEmpty = true ∨
      tc.loadout_list.isEmpty = true) := by
    rintro (h | h)
    · exact hne1 (List.isEmpty_iff.mp h)
    · exact hne2 (List.isEmpty_iff.mp h)
  unfold ShieldTester.compute
  rw [if_neg hguard]
  by_cases hpre : prelim > 0 ∧ prelim ≠ (tc.loadout_list.length : ℤ)
  · rw [if_pos hpre]
    obtain ⟨res, hres⟩ := prefilterSelect_ok tc prelim.toNat hpf
    rw [hres, except_bind_ok, except_pure, except_bind_ok]
    dsimp only
    constructor
    · intro hc0
      rw [computeLoop_cancel_now _ _ _ _ _ _ _ hc0]
      rfl
    · intro i hc tr htr
      have := computeLoop_dispatched _ cancel _ 0 _ _ _ tr i htr (Nat.zero_le i) hc
      simpa using this
  · rw [if_neg hpre, except_pure, except_bind_ok]
    dsimp only
    constructor
    · intro hc0
      rw [computeLoop_cancel_now _ _ _ _ _ _ _ hc0]
      rfl
    · intro i hc tr htr
      have := computeLoop_dispatched _ cancel _ 0 _ _ _ tr i htr (Nat.zero_le i) hc
      simpa using this

/-- Witness for C4: a concrete search with the flag set from the start
returns the cancelled outcome with nothing dispatched. -/
theorem claim_C4_witness :
    ShieldTester.compute tcC5 (fun _ => true) 0 = .ok ⟨none, [.cancelled], []⟩ ∧
      ∀ tr, ShieldTester.compute tcC5 (fun _ => true) 0 = .ok tr →
        tr.dispatched.length ≤ 0 := by
  have h := claim_C4 tcC5 (fun _ => true) 0 (by decide) (by decide) (by decide)
  exact ⟨h.1 rfl, fun tr htr => h.2 0 rfl tr htr⟩

lemma booster_amount_clamp (tc : TestCase) (q : ℤ)
    (hq : (tc.ship.utility_slots : ℤ) < q) :
    ShieldTester.booster_amount { tc with number_of_boosters_to_test := q } =
      ShieldTester.booster_amount
        { tc with number_of_boosters_to_test := (tc.ship.utility_slots : ℤ) } := by
  unfold ShieldTester.booster_amount
  dsimp only
  omega

lemma test_case_nb (ship : StarShip) (de ed kd td ad scb gh : ℚ)
    (vars : List ShieldBoosterVariant) (los : List LoadOut) (a b : ℤ)
    (combos : List (List ℕ)) :
    TestCase.test_case ⟨ship, de, ed, kd, td, ad, scb, gh, vars, los, a⟩ combos =
      TestCase.test_case ⟨ship, de, ed, kd, td, ad, scb, gh, vars, los, b⟩ combos := rfl

lemma prefilterSelect_nb (ship : StarShip) (de ed kd td ad scb gh : ℚ)
    (vars : List ShieldBoosterVariant) (los : List LoadOut) (a b : ℤ) (p : ℕ) :
    ShieldTester.prefilterSelect ⟨ship, de, ed, kd, td, ad, scb, gh, vars, los, a⟩ p =
      ShieldTester.prefilterSelect ⟨ship, de, ed, kd, td, ad, scb, gh, vars, los, b⟩ p := rfl

lemma computeLoop_nb (ship : StarShip) (de ed kd td ad scb gh : ℚ)
    (vars : List ShieldBoosterVariant) (los : List LoadOut) (a b : ℤ)
    (cancel : ℕ → Bool) :
    ∀ (l : List (List (List ℕ))) (idx : ℕ) (best : TestResult)
      (events : List CEvent) (dispatched : List (List (List ℕ))),
      ShieldTester.computeLoop ⟨ship, de, ed, kd, td, ad, scb, gh, vars, los, a⟩
          cancel idx best events dispatched l =
        ShieldTester.computeLoop ⟨ship, de, ed, kd, td, ad, scb, gh, vars, los, b⟩
          cancel idx best events dispatched l := by
  intro l
  induction l with
  | nil => intro idx best events dispatched; rfl
  | cons chunk rest ih =>
    intro idx best events dispatched
    unfold ShieldTester.computeLoop
    by_cases hc : cancel idx = true
    · rw [if_pos hc, if_pos hc]
    · rw [if_neg hc, if_neg hc,
        test_case_nb ship de ed kd td ad scb gh vars los a b chunk]
      cases h : TestCase.test_case ⟨ship, de, ed, kd, td, ad, scb, gh, vars, los, b⟩ chunk with
      | error e => simp only [h, except_bind_error]
      | ok r =>
        simp only [h, except_bind_ok]
        exact ih (idx + 1) _ _ _

lemma compute_nb (ship : StarShip) (de ed kd td ad scb gh : ℚ)
    (vars : List ShieldBoosterVariant) (los : List LoadOut) (a b : ℤ)
    (cancel : ℕ → Bool) (prelim : ℤ)
    (hab : ShieldTester.booster_amount ⟨ship, de, ed, kd, td, ad, scb, gh, vars, los, a⟩ =
      ShieldTester.booster_amount ⟨ship, de, ed, kd, td, ad, scb, gh, vars, los, b⟩) :
    ShieldTester.compute ⟨ship, de, ed, kd, td, ad, scb, gh, vars, los, a⟩ cancel prelim =
      ShieldTester.compute ⟨ship, de, ed, kd, td, ad, scb, gh, vars, los, b⟩ cancel prelim := by
  unfold ShieldTester.compute ShieldTester.booster_combinations
  dsimp only
  by_cases hg : vars.isEmpty = true ∨ los.isEmpty = true
  · rw [if_pos hg, if_pos hg]
  · rw [if_neg hg, if_neg hg, hab]
    by_cases hp : prelim > 0 ∧ prelim ≠ (los.length : ℤ)
    · rw [if_pos hp, if_pos hp,
        prefilterSelect_nb ship de ed kd td ad scb gh vars los a b prelim.toNat]
      cases h : ShieldTester.prefilterSelect
          ⟨ship, de, ed, kd, td, ad, scb, gh, vars, los, b⟩ prelim.toNat with
      | error e => simp only [h, except_bind_error]
      | ok f =>
        simp only [h, except_pure, except_bind_ok]
        exact computeLoop_nb ship de ed kd td ad scb gh vars f a b cancel _ 0 {} [] []
    · rw [if_neg hp, if_neg hp]
      simp only [except_pure, except_bind_ok]
      exact computeLoop_nb ship de ed kd td ad scb gh vars los a b cancel _ 0 {} [] []

lemma compute_nb_congr (tc : TestCase) (cancel : ℕ → Bool) (prelim : ℤ) (a b : ℤ)
    (hab : ShieldTester.booster_amount { tc with number_of_boosters_to_test := a } =
      ShieldTester.booster_amount { tc with number_of_boosters_to_test := b }) :
    ShieldTester.compute { tc with number_of_boosters_to_test := a } cancel prelim =
      ShieldTester.compute { tc with number_of_boosters_to_test := b } cancel prelim := by
  obtain ⟨ship, de, ed, kd, td, ad, scb, gh, vars, los, n⟩ := tc
  exact compute_nb ship de ed kd td ad scb gh vars los a b cancel prelim hab

lemma plStep_bst (tc : TestCase) (bs : List ShieldBoosterVariant)
    (em km tm hb : ℚ) (st : TCState) (lo : LoadOut) (k : ℕ) (hbs : bs.length = k)
    (hQ : ∀ l, st.best_shield_booster_loadout = some l → l.length = k) :
    ∀ l, (plStep tc bs em km tm hb st lo).best_shield_booster_loadout = some l →
      l.length = k := by
  unfold plStep
  dsimp only
  split_ifs <;> intro l hl <;>
    first
      | exact hQ l hl
      | (simp only [Option.some.injEq] at hl; rw [← hl]; exact hbs)

lemma foldLoadouts_bst (tc : TestCase) (bs : List ShieldBoosterVariant)
    (em km tm hb : ℚ) (k : ℕ) (hbs : bs.length = k) :
    ∀ (los : List LoadOut) (st st' : TCState),
      los.foldlM (TestCase.processLoadout tc bs em km tm hb) st = .ok st' →
      (∀ l, st.best_shield_booster_loadout = some l → l.length = k) →
      ∀ l, st'.best_shield_booster_loadout = some l → l.length = k := by
  intro los
  induction los with
  | nil =>
    intro st st' h hQ
    rw [List.foldlM_nil, except_pure, Except.ok.injEq] at h
    subst h
    exact hQ
  | cons lo los ih =>
    intro st st' h hQ
    rw [List.foldlM_cons, processLoadout_eq] at h
    by_cases hd : pl_dps tc em km tm lo = 0
    · rw [if_pos hd, except_bind_error] at h
      exact absurd h (by simp)
    · rw [if_neg hd, except_bind_ok] at h
      exact ih _ st' h (plStep_bst tc bs em km tm hb st lo k hbs hQ)

lemma processCombination_bst (tc : TestCase) (st st' : TCState) (c : List ℕ) (k : ℕ)
    (hck : c.length = k) (h : TestCase.processCombination tc st c = .ok st')
    (hQ : ∀ l, st.best_shield_booster_loadout = some l → l.length = k) :
    ∀ l, st'.best_shield_booster_loadout = some l → l.length = k := by
  unfold TestCase.processCombination at h
  cases hm : c.mapM (pyIndex tc.shield_booster_variants) with
  | error e => rw [hm, except_bind_error] at h; exact absurd h (by simp)
  | ok bs =>
    rw [hm, except_bind_ok] at h
    have hlen : bs.length = k := by
      rw [← (except_mapM_forall2 hm).length_eq]
      exact hck
    exact foldLoadouts_bst tc bs _ _ _ _ k hlen tc.loadout_list st st' h hQ

lemma foldCombos_bst (tc : TestCase) (k : ℕ) :
    ∀ (combos : List (List ℕ)) (st st' : TCState),
      (∀ c ∈ combos, c.length = k) →
      combos.foldlM (TestCase.processCombination tc) st = .ok st' →
      (∀ l, st.best_shield_booster_loadout = some l → l.length = k) →
      ∀ l, st'.best_shield_booster_loadout = some l → l.length = k := by
  intro combos
  induction combos with
  | nil =>
    intro st st' _ h hQ
    rw [List.foldlM_nil, except_pure, Except.ok.injEq] at h
    subst h
    exact hQ
  | cons c combos ih =>
    intro st st' hk h hQ
    rw [List.foldlM_cons] at h
    cases h1 : TestCase.processCombination tc st c with
    | error e => rw [h1, except_bind_error] at h; exact absurd h (by simp)
    | ok st1 =>
      rw [h1, except_bind_ok] at h
      exact ih st1 st' (fun c' hm => hk c' (List.mem_cons_of_mem c hm)) h
        (processCombination_bst tc st st1 c k (hk c (List.mem_cons_self c combos)) h1 hQ)

lemma test_case_bst (tc : TestCase) (combos : List (List ℕ)) (k : ℕ) (r : TestResult)
    (hk : ∀ c ∈ combos, c.length = k) (h : TestCase.test_case tc combos = .ok r) :
    ∀ lo, r.loadout = some lo → ∀ bs, lo.boosters = some bs → bs.length = k := by
  unfold TestCase.test_case at h
  cases hf : combos.foldlM (TestCase.processCombination tc) tcInit with
  | error e => rw [hf, except_bind_error] at h; exact absurd h (by simp)
  | ok st =>
    rw [hf, except_bind_ok] at h
    have hQ := foldCombos_bst tc k combos tcInit st hk hf (by intro l hl; simp [tcInit] at hl)
    cases hlo : st.best_loadout with
    | none =>
      rw [hlo] at h
      simp only [show (throw PyErr.attributeError : Except PyErr TestResult) =
        .error .attributeError from rfl] at h
      exact absurd h (by simp)
    | some lo0 =>
      rw [hlo] at h
      simp only [except_pure, Except.ok.injEq] at h
      subst h
      intro lo hl bs hbs
      simp only [Option.some.injEq] at hl
      rw [← hl] at hbs
      exact hQ bs hbs

lemma apply_async_cases (best r : TestResult) :
    ShieldTester.apply_async_callback best r = best ∨
      ShieldTester.apply_async_callback best r = r := by
  unfold ShieldTester.apply_async_callback
  split_ifs <;> simp

lemma chunksGo_flatten {α : Type} (n : ℕ) (hn : n ≠ 0) :
    ∀ (fuel : ℕ) (l : List α), l.length ≤ fuel →
      (ShieldTester.chunksGo n fuel l).flatten = l := by
  intro fuel
  induction fuel with
  | zero =>
    intro l hl
    rw [List.length_eq_zero.mp (Nat.le_zero.mp hl)]
    rfl
  | succ fuel ih =>
    intro l hl
    cases l with
    | nil => rfl
    | cons x xs =>
      show ((x :: xs).take n :: ShieldTester.chunksGo n fuel ((x :: xs).drop n)).flatten = x :: xs
      rw [List.flatten_cons, ih ((x :: xs).drop n)
        (by simp only [List.length_drop, List.length_cons] at hl ⊢; omega),
        List.take_append_drop]

lemma chunks_flatten {α : Type} (n : ℕ) (hn : n ≠ 0) (l : List α) :
    (ShieldTester.chunks n l).flatten = l := by
  unfold ShieldTester.chunks
  rw [if_neg hn]
  exact chunksGo_flatten n hn l.length l (le_refl _)

lemma computeLoop_result {P : TestResult → Prop} (tc : TestCase) (cancel : ℕ → Bool) :
    ∀ (l : List (List (List ℕ))) (idx : ℕ) (best : TestResult)
      (events : List CEvent) (dispatched : List (List (List ℕ))) (tr : ComputeTrace),
      ShieldTester.computeLoop tc cancel idx best events dispatched l = .ok tr →
      P best →
      (∀ chunk ∈ l, ∀ rr, TestCase.test_case tc chunk = .ok rr → P rr) →
      ∀ r, tr.result = some r → P r := by
  intro l
  induction l with
  | nil =>
    intro idx best events dispatched tr h hP _ r hr
    unfold ShieldTester.computeLoop at h
    split_ifs at h <;> simp only [except_pure, Except.ok.injEq] at h <;> subst h
    · simp at hr
    · simp only [Option.some.injEq] at hr
      rw [← hr]
      exact hP
  | cons chunk rest ih =>
    intro idx best events dispatched tr h hP hall r hr
    unfold ShieldTester.computeLoop at h
    by_cases hc : cancel idx = true
    · rw [if_pos hc] at h
      simp only [except_pure, Except.ok.injEq] at h
      subst h
      simp at hr
    · rw [if_neg (by simpa using hc)] at h
      cases hrr : TestCase.test_case tc chunk with
      | error e => rw [hrr, except_bind_error] at h; exact absurd h (by simp)
      | ok rr =>
        rw [hrr, except_bind_ok] at h
        have hP2 : P (ShieldTester.apply_async_callback best rr) := by
          rcases apply_async_cases best rr with hcase | hcase <;> rw [hcase]
          · exact hP
          · exact hall chunk (List.mem_cons_self chunk rest) rr hrr
        exact ih (idx + 1) _ _ _ tr h hP2
          (fun ch hm => hall ch (List.mem_cons_of_mem chunk hm)) r hr

/-- Claim C9: `ShieldTester.compute` clamps the requested booster count into
`[0, ship.utility_slots]`: (1) requesting more than the slot count gives the
same outcome (result, events and dispatched chunks) as requesting exactly the
slot count; (2) every evaluated booster combination has the clamped length
`max(0, min(slots, requested))`; and (3) whenever a run returns a result
whose loadout carries a booster list, that list has the clamped length. -/
theorem claim_C9 (tc : TestCase) (cancel : ℕ → Bool) (prelim : ℤ) (q : ℤ)
    (hq : (tc.ship.utility_slots : ℤ) < q) :
    (ShieldTester.compute { tc with number_of_boosters_to_test := q } cancel prelim =
      ShieldTester.compute
        { tc with number_of_boosters_to_test := (tc.ship.utility_slots : ℤ) }
        cancel prelim) ∧
    (∀ c ∈ ShieldTester.booster_combinations tc,
      c.length = ShieldTester.booster_amount tc) ∧
    (∀ tr, ShieldTester.compute tc cancel prelim = .ok tr →
      ∀ r, tr.result = some r → ∀ lo, r.loadout = some lo →
        ∀ bs, lo.boosters = some bs → bs.length = ShieldTester.booster_amount tc) := by
  refine ⟨compute_nb_congr tc cancel prelim q _ (booster_amount_clamp tc q hq), ?_, ?_⟩
  · intro c hc
    exact (mem_cwrFrom tc.shield_booster_variants.length
      (ShieldTester.booster_amount tc) 0 c hc).1
  · intro tr htr r hr
    unfold ShieldTester.compute at htr
    by_cases hguard : tc.shield_booster_variants.isEmpty = true ∨ tc.loadout_list.isEmpty = true
    · rw [if_pos hguard] at htr
      simp only [except_pure, Except.ok.injEq] at htr
      subst htr
      simp at hr
    · rw [if_neg hguard] at htr
      dsimp only at htr
      have hk : ∀ chunk ∈ ShieldTester.chunks ShieldTester.MP_CHUNK_SIZE
          (ShieldTester.booster_combinations tc), ∀ c ∈ chunk,
          c.length = ShieldTester.booster_amount tc := by
        intro chunk hchunk c hc
        have hcm : c ∈ ShieldTester.booster_combinations tc := by
          rw [← chunks_flatten ShieldTester.MP_CHUNK_SIZE (by norm_num [ShieldTester.MP_CHUNK_SIZE])
            (ShieldTester.booster_combinations tc)]
          exact List.mem_flatten.mpr ⟨chunk, hchunk, hc⟩
        exact (mem_cwrFrom tc.shield_booster_variants.length
          (ShieldTester.booster_amount tc) 0 c hcm).1
      by_cases hpre : prelim > 0 ∧ prelim ≠ (tc.loadout_list.length : ℤ)
      · rw [if_pos hpre] at htr
        cases hps : ShieldTester.prefilterSelect tc prelim.toNat with
        | error e => simp only [hps, except_bind_error] at htr; exact absurd htr (by simp)
        | ok res =>
          simp only [hps, except_pure, except_bind_ok] at htr
          exact computeLoop_result _ cancel _ 0 _ _ _ tr htr
            (by intro lo hl; simp at hl)
            (fun chunk hm rr hrr lo hl bs hbs =>
              test_case_bst _ chunk _ rr (hk chunk hm) hrr lo hl bs hbs) r hr
      · rw [if_neg hpre] at htr
        simp only [except_pure, except_bind_ok] at htr
        exact computeLoop_result _ cancel _ 0 _ _ _ tr htr
          (by intro lo hl; simp at hl)
          (fun chunk hm rr hrr lo hl bs hbs =>
            test_case_bst _ chunk _ rr (hk chunk hm) hrr lo hl bs hbs) r hr

/-- Witness for C9 at a concrete search: requesting 5 boosters on a one-slot
ship equals requesting exactly 1. -/
theorem claim_C9_witness :
    ShieldTester.compute { tcC5 with number_of_boosters_to_test := 5 }
        (fun _ => false) 0 =
      ShieldTester.compute { tcC5 with number_of_boosters_to_test :=
        (tcC5.ship.utility_slots : ℤ) } (fun _ => false) 0 :=
  (claim_C9 tcC5 (fun _ => false) 0 5 (by decide)).1

/-- Witness for C10 on a concrete loadout with empty booster list. -/
theorem claim_C10_witness :
    (LoadOut.get_total_values ⟨{ explres := 1/2, kinres := 2/5, thermres := -1/5 }, ⟨100, 50, 4⟩, 300, some []⟩).isSome = true ∧
      LoadOut.get_total_values ⟨{ explres := 1/2, kinres := 2/5, thermres := -1/5 }, ⟨100, 50, 4⟩, 300, some []⟩ =
        some (1 - 1/2, 1 - 2/5, 1 - (-1/5), 300) := by
  have h := claim_C10 ⟨{ explres := 1/2, kinres := 2/5, thermres := -1/5 }, ⟨100, 50, 4⟩, 300, some []⟩
  exact ⟨h.1, h.2 (Or.inr rfl)⟩

end ShieldTesterModel
